import Mathlib

/-!
Verification development for `src/trace_processor/metrics/metrics.cc`
(perfetto trace-processor metrics subsystem).

The file shallowly embeds the metrics code: the descriptor-driven proto
encoder (`ProtoBuilder`), the envelope validation
(`ValidateSingleNonEmptyMessage`), the repeated-field accumulator
(`RepeatedFieldBuilder`), the template expander (`TemplateReplace`) and the
metric orchestrator (`ComputeMetrics`).  Machine integers are modelled as
`Nat`/`Int` with explicit reductions modulo `2 ^ w`; byte buffers are
`List Nat`; C++ `base::Status` is `Option String` (`none` = ok); the
fallible helpers return `Except String _`.  The underlying wire encoder
(protozero `Message`) and the generated envelope decoders, which live
outside `src/`, are modelled from the spec's description of the wire
format (sections 4.1, 4.2 and 6), with the width-generic
`Message::AppendFixed` keeping its argument-width-driven behaviour that
the call sites in `metrics.cc` rely on.
-/

namespace Metrics

/-! ### Wire-format primitives (unsigned LEB128 varints, little-endian fixints) -/

/-- Fuel-driven base-128 varint encoder; fuel `n + 1` always suffices. -/
def varintEncodeAux : Nat → Nat → List Nat
  | 0, _ => []
  | f + 1, n => if n < 128 then [n] else (n % 128 + 128) :: varintEncodeAux f (n / 128)

/-- Unsigned varint encoding of a natural number (little-endian groups of 7 bits,
continuation bit 0x80), as written by protozero `WriteVarInt`. -/
def varintEncode (n : Nat) : List Nat :=
  varintEncodeAux (n + 1) n

/-- Varint decoding: returns the decoded value and the remaining bytes. -/
def varintDecode : List Nat → Option (Nat × List Nat)
  | [] => none
  | b :: bs =>
    if b < 128 then some (b, bs)
    else
      match varintDecode bs with
      | some (m, r) => some (b % 128 + 128 * m, r)
      | none => none

/-- Little-endian fixed-width byte encoding (`k` bytes of `n`). -/
def leBytes : Nat → Nat → List Nat
  | 0, _ => []
  | k + 1, n => n % 256 :: leBytes k (n / 256)

/-- Value of a little-endian byte list. -/
def leVal : List Nat → Nat
  | [] => 0
  | b :: r => b + 256 * leVal r

/-- Two's-complement reduction of an `int64_t` value to its unsigned 64-bit image,
as produced by the `static_cast<uint64_t>` inside protozero `WriteVarInt`. -/
def toUInt64 (v : Int) : Nat :=
  (v % (2 : Int) ^ 64).toNat

/-- Signed interpretation of a 64-bit unsigned value (conforming `int64` decode). -/
def toSigned64 (n : Nat) : Int :=
  let m : Nat := n % 2 ^ 64
  if m < 2 ^ 63 then (m : Int) else (m : Int) - 2 ^ 64

/-- Signed interpretation of the low 32 bits (conforming `int32` decode). -/
def toSigned32 (n : Nat) : Int :=
  let m : Nat := n % 2 ^ 32
  if m < 2 ^ 31 then (m : Int) else (m : Int) - 2 ^ 32

/-- 64-bit zig-zag encoding, as in protozero `AppendSignedVarInt`. -/
def zigZag (v : Int) : Nat :=
  if 0 ≤ v then 2 * v.toNat else 2 * (-v).toNat - 1

/-- Conforming `sint64` decode: un-zig-zag of the low 64 bits. -/
def unZigZag64 (n : Nat) : Int :=
  let m : Nat := n % 2 ^ 64
  if m % 2 = 0 then ((m / 2 : Nat) : Int) else -((m / 2 : Nat) : Int) - 1

/-- Conforming `sint32` decode: un-zig-zag of the low 32 bits. -/
def unZigZag32 (n : Nat) : Int :=
  let m : Nat := n % 2 ^ 32
  if m % 2 = 0 then ((m / 2 : Nat) : Int) else -((m / 2 : Nat) : Int) - 1

/-- Embeds `static_cast<int32_t>` of an `int64_t` value (modular truncation). -/
def toInt32 (v : Int) : Int :=
  let m := v % (2 : Int) ^ 32
  if m < 2 ^ 31 then m else m - 2 ^ 32

/-- A decoded wire record: the four protobuf wire types. -/
inductive WireValue where
  | varint (v : Nat)
  | fixed64 (v : Nat)
  | lenDelim (bs : List Nat)
  | fixed32 (v : Nat)
  deriving DecidableEq, Repr

/-- Serialization of one field record: tag varint (`fieldNumber << 3 | wireType`)
followed by the payload, exactly as protozero `Message::Append*` writes it. -/
def encodeField (fn : Nat) : WireValue → List Nat
  | .varint v => varintEncode (fn * 8) ++ varintEncode v
  | .fixed64 v => varintEncode (fn * 8 + 1) ++ leBytes 8 v
  | .lenDelim bs => varintEncode (fn * 8 + 2) ++ varintEncode bs.length ++ bs
  | .fixed32 v => varintEncode (fn * 8 + 5) ++ leBytes 4 v

/-- Well-formedness of a wire record (payload fits the fixed width). -/
def WireValue.wf : WireValue → Prop
  | .varint _ => True
  | .fixed64 v => v < 2 ^ 64
  | .lenDelim _ => True
  | .fixed32 v => v < 2 ^ 32

/-- Fuel-driven field-stream parser; like protozero's `ProtoDecoder`, it stops
silently at malformed data, returning the records parsed so far. -/
def parseFieldsAux : Nat → List Nat → List (Nat × WireValue)
  | 0, _ => []
  | _ + 1, [] => []
  | f + 1, b :: bs =>
    match varintDecode (b :: bs) with
    | none => []
    | some (tag, rest) =>
      let fn := tag / 8
      if fn = 0 then []
      else
        match tag % 8 with
        | 0 =>
          match varintDecode rest with
          | some (v, r2) => (fn, .varint v) :: parseFieldsAux f r2
          | none => []
        | 1 =>
          if 8 ≤ rest.length then
            (fn, .fixed64 (leVal (rest.take 8))) :: parseFieldsAux f (rest.drop 8)
          else []
        | 2 =>
          match varintDecode rest with
          | some (l, r2) =>
            if l ≤ r2.length then (fn, .lenDelim (r2.take l)) :: parseFieldsAux f (r2.drop l)
            else []
          | none => []
        | 5 =>
          if 4 ≤ rest.length then
            (fn, .fixed32 (leVal (rest.take 4))) :: parseFieldsAux f (rest.drop 4)
          else []
        | _ => []

/-- Parse a serialized message into its in-order field records. -/
def parseFields (bs : List Nat) : List (Nat × WireValue) :=
  parseFieldsAux bs.length bs

/-- Last-wins lookup of a field number in a record list (protobuf semantics for
non-repeated fields: a later occurrence overrides an earlier one). -/
def lastW : List (Nat × WireValue) → Nat → Option WireValue
  | [], _ => none
  | p :: fs, fn =>
    match lastW fs fn with
    | some w => some w
    | none => if p.1 = fn then some p.2 else none

/-! ### Conforming decoder views (protobuf-conformant field recovery)

These model what a conforming protobuf decoder recovers for a field declared
with the given scalar kind: the last record for the field number must carry
the wire type that kind mandates; a record with any other wire type is not
that field (it lands in unknown fields). -/

/-- The varint record of a field, if its last record is a varint. -/
def recoverVarint (bs : List Nat) (fn : Nat) : Option Nat :=
  match lastW (parseFields bs) fn with
  | some (.varint v) => some v
  | _ => none

/-- Conforming `int32` field decode. -/
def recoverInt32 (bs : List Nat) (fn : Nat) : Option Int :=
  (recoverVarint bs fn).map toSigned32

/-- Conforming `int64` field decode. -/
def recoverInt64 (bs : List Nat) (fn : Nat) : Option Int :=
  (recoverVarint bs fn).map toSigned64

/-- Conforming `uint32` field decode. -/
def recoverUint32 (bs : List Nat) (fn : Nat) : Option Nat :=
  (recoverVarint bs fn).map (· % 2 ^ 32)

/-- Conforming `bool` field decode, seen as the integer 0 or 1. -/
def recoverBool (bs : List Nat) (fn : Nat) : Option Int :=
  (recoverVarint bs fn).map (fun n => if n = 0 then 0 else 1)

/-- Conforming `sint32` field decode. -/
def recoverSint32 (bs : List Nat) (fn : Nat) : Option Int :=
  (recoverVarint bs fn).map unZigZag32

/-- Conforming `sint64` field decode. -/
def recoverSint64 (bs : List Nat) (fn : Nat) : Option Int :=
  (recoverVarint bs fn).map unZigZag64

/-- Conforming `fixed64` field decode (unsigned): requires the 64-bit wire type. -/
def recoverFixed64 (bs : List Nat) (fn : Nat) : Option Nat :=
  match lastW (parseFields bs) fn with
  | some (.fixed64 v) => some v
  | _ => none

/-- Conforming `fixed32` field decode (unsigned): requires the 32-bit wire type. -/
def recoverFixed32 (bs : List Nat) (fn : Nat) : Option Nat :=
  match lastW (parseFields bs) fn with
  | some (.fixed32 v) => some v
  | _ => none

/-- Conforming `double` field decode, as the 64-bit IEEE bit pattern. -/
def recoverDouble (bs : List Nat) (fn : Nat) : Option Nat :=
  recoverFixed64 bs fn

/-- Conforming `string` field decode, as the UTF-8 byte payload. -/
def recoverString (bs : List Nat) (fn : Nat) : Option (List Nat) :=
  match lastW (parseFields bs) fn with
  | some (.lenDelim p) => some p
  | _ => none

/-- Presence of a field in a serialized message (any wire record). -/
def fieldPresent (bs : List Nat) (fn : Nat) : Bool :=
  (lastW (parseFields bs) fn).isSome

/-! ### Strings crossing the byte boundary -/

/-- Bytes of a C++ `std::string`/`StringView` holding this text (ASCII use). -/
def strBytes (s : String) : List Nat :=
  s.data.map Char.toNat

/-- Embeds `base::StringView::ToStdString` of a byte payload. -/
def bytesToStdString (l : List Nat) : String :=
  String.mk (l.map Char.ofNat)

/-! ### IEEE-754 narrowing (the `static_cast<float>` in `AppendDouble`)

Doubles are modelled throughout by their 64-bit IEEE bit pattern; the cast to
`float` is the bit-level round-to-nearest-even narrowing. No claim in this
development reasons about the numeric content of the narrowing; it is defined
so that `AppendDouble`'s float branch is total and executable. -/

/-- Right shift by `k` with IEEE round-to-nearest, ties-to-even. -/
def roundShiftRight (m k : Nat) : Nat :=
  if k = 0 then m
  else
    let q := m / 2 ^ k
    let r := m % 2 ^ k
    let half := 2 ^ (k - 1)
    if half < r ∨ (r = half ∧ q % 2 = 1) then q + 1 else q

/-- Narrow a 64-bit IEEE double bit pattern to a 32-bit IEEE float bit pattern. -/
def doubleToFloatBits (d : Nat) : Nat :=
  let sign := d / 2 ^ 63 % 2
  let exp := d / 2 ^ 52 % 2 ^ 11
  let frac := d % 2 ^ 52
  if exp = 2047 then
    sign * 2 ^ 31 + 255 * 2 ^ 23 + (if frac = 0 then 0 else frac / 2 ^ 29 % 2 ^ 22 + 2 ^ 22)
  else if exp = 0 then sign * 2 ^ 31
  else if 1151 ≤ exp then sign * 2 ^ 31 + 255 * 2 ^ 23
  else if 897 ≤ exp then
    let m := 2 ^ 52 + frac
    let fm := roundShiftRight m 29
    if fm = 2 ^ 24 then
      if 255 ≤ exp - 896 + 1 then sign * 2 ^ 31 + 255 * 2 ^ 23
      else sign * 2 ^ 31 + (exp - 896 + 1) * 2 ^ 23
    else sign * 2 ^ 31 + (exp - 896) * 2 ^ 23 + (fm - 2 ^ 23)
  else
    let m := 2 ^ 52 + frac
    let fm := roundShiftRight m (926 - exp)
    if 2 ^ 23 ≤ fm then sign * 2 ^ 31 + 2 ^ 23
    else sign * 2 ^ 31 + fm

/-! ### Descriptors (model of the external Schema Registry: `descriptors.h`,
which is outside `src/`; modelled from the spec, section 3 "Field Descriptor",
"Message Descriptor" and the bidirectional enum name-value mapping). -/

/-- Embeds `FieldDescriptorProto::Type`: the declared wire kind of a field. -/
inductive FieldType where
  | double
  | float
  | int64
  | uint64
  | int32
  | fixed64
  | fixed32
  | bool
  | string
  | group
  | message
  | bytes
  | uint32
  | enum
  | sfixed32
  | sfixed64
  | sint32
  | sint64
  deriving DecidableEq, Repr

/-- The numeric value of `FieldDescriptorProto::Type` (descriptor.proto). -/
def FieldType.code : FieldType → Nat
  | .double => 1
  | .float => 2
  | .int64 => 3
  | .uint64 => 4
  | .int32 => 5
  | .fixed64 => 6
  | .fixed32 => 7
  | .bool => 8
  | .string => 9
  | .group => 10
  | .message => 11
  | .bytes => 12
  | .uint32 => 13
  | .enum => 14
  | .sfixed32 => 15
  | .sfixed64 => 16
  | .sint32 => 17
  | .sint64 => 18

/-- A resolved field: name, wire number, kind, repeated flag and (for
enum/message kinds) the resolved type name. -/
structure FieldDescriptor where
  name : String
  number : Nat
  type : FieldType
  is_repeated : Bool
  resolved_type_name : String
  deriving DecidableEq, Repr

/-- A message or enum descriptor: full type name, field list, enum members
as (value, name) pairs. -/
structure ProtoDescriptor where
  full_name : String
  fields : List FieldDescriptor
  enum_values : List (Int × String)
  deriving DecidableEq, Repr

/-- Exact, case-sensitive field lookup by name. -/
def ProtoDescriptor.FindFieldByName (d : ProtoDescriptor) (s : String) : Option FieldDescriptor :=
  d.fields.find? (fun f => f.name == s)

/-- Enum member name for a declared value. -/
def ProtoDescriptor.FindEnumString (d : ProtoDescriptor) (v : Int) : Option String :=
  (d.enum_values.find? (fun p => p.1 == v)).map (fun p => p.2)

/-- Enum member value for a declared name. -/
def ProtoDescriptor.FindEnumValue (d : ProtoDescriptor) (s : String) : Option Int :=
  (d.enum_values.find? (fun p => p.2 == s)).map (fun p => p.1)

/-- The descriptor pool (Schema Registry). -/
structure DescriptorPool where
  descriptors : List ProtoDescriptor
  deriving DecidableEq, Repr

/-- Embeds `DescriptorPool::FindDescriptorIdx`. -/
def DescriptorPool.FindDescriptorIdx (p : DescriptorPool) (name : String) : Option Nat :=
  p.descriptors.findIdx? (fun d => d.full_name == name)

/-- Embeds `pool_->descriptors()[idx]` (index always produced by `FindDescriptorIdx`). -/
def DescriptorPool.getDescriptor (p : DescriptorPool) (i : Nat) : ProtoDescriptor :=
  p.descriptors.getD i ⟨"", [], []⟩

/-- protozero `proto_utils::kMaxMessageLength` (256 MiB - 1). -/
def kMaxMessageLength : Nat := 268435455

/-! ### Envelope decoding (model of the generated pbzero decoders for
`ProtoBuilderResult` / `SingleBuilderResult` / `RepeatedBuilderResult`.
Modelled from the spec: the Envelope wire format of section 3 and 6 — the
generated `metrics_impl.pbzero.h` code is outside `src/`. Field numbers:
ProtoBuilderResult { is_repeated = 1, single = 2, repeated = 3 };
SingleBuilderResult { type = 1, type_name = 2, protobuf = 3 };
RepeatedBuilderResult { value = 1 (repeated) };
Value { int_value = 1, double_value = 2, string_value = 3, bytes_value = 4 }. -/

/-- Embeds `ProtoBuilderResult::Decoder::is_repeated()` (false when absent). -/
def pbrIsRepeated (bs : List Nat) : Bool :=
  match lastW (parseFields bs) 1 with
  | some (.varint v) => v != 0
  | _ => false

/-- Embeds `ProtoBuilderResult::Decoder::single()` payload bytes (empty when absent). -/
def pbrSingleBytes (bs : List Nat) : List Nat :=
  match lastW (parseFields bs) 2 with
  | some (.lenDelim p) => p
  | _ => []

/-- Embeds `ProtoBuilderResult::Decoder::repeated()` payload bytes (empty when absent). -/
def pbrRepeatedBytes (bs : List Nat) : List Nat :=
  match lastW (parseFields bs) 3 with
  | some (.lenDelim p) => p
  | _ => []

/-- Embeds `SingleBuilderResult::Decoder::type()` (0 when absent). -/
def sbrType (bs : List Nat) : Nat :=
  match lastW (parseFields bs) 1 with
  | some (.varint v) => v
  | _ => 0

/-- Embeds `SingleBuilderResult::Decoder::type_name()` bytes (empty when absent). -/
def sbrTypeName (bs : List Nat) : List Nat :=
  match lastW (parseFields bs) 2 with
  | some (.lenDelim p) => p
  | _ => []

/-- Embeds `SingleBuilderResult::Decoder::has_protobuf()`. -/
def sbrHasProtobuf (bs : List Nat) : Bool :=
  match lastW (parseFields bs) 3 with
  | some (.lenDelim _) => true
  | _ => false

/-- Embeds `SingleBuilderResult::Decoder::protobuf()` bytes (empty when absent). -/
def sbrProtobuf (bs : List Nat) : List Nat :=
  match lastW (parseFields bs) 3 with
  | some (.lenDelim p) => p
  | _ => []

/-- In-order iteration over `RepeatedBuilderResult`'s repeated `value` field. -/
def rbrValues (bs : List Nat) : List (List Nat) :=
  (parseFields bs).filterMap (fun p =>
    match p with
    | (1, .lenDelim v) => some v
    | _ => none)

/-- Embeds `Value::has_int_value()`. -/
def rvHasInt (vbs : List Nat) : Bool :=
  match lastW (parseFields vbs) 1 with
  | some (.varint _) => true
  | _ => false

/-- Embeds `Value::int_value()` (an int64). -/
def rvIntValue (vbs : List Nat) : Int :=
  toSigned64
    (match lastW (parseFields vbs) 1 with
     | some (.varint v) => v
     | _ => 0)

/-- Embeds `Value::has_double_value()`. -/
def rvHasDouble (vbs : List Nat) : Bool :=
  match lastW (parseFields vbs) 2 with
  | some (.fixed64 _) => true
  | _ => false

/-- Embeds `Value::double_value()` as bit pattern. -/
def rvDoubleBits (vbs : List Nat) : Nat :=
  match lastW (parseFields vbs) 2 with
  | some (.fixed64 v) => v
  | _ => 0

/-- Embeds `Value::has_string_value()`. -/
def rvHasString (vbs : List Nat) : Bool :=
  match lastW (parseFields vbs) 3 with
  | some (.lenDelim _) => true
  | _ => false

/-- Embeds `Value::string_value()` bytes. -/
def rvStringBytes (vbs : List Nat) : List Nat :=
  match lastW (parseFields vbs) 3 with
  | some (.lenDelim p) => p
  | _ => []

/-- Embeds `Value::has_bytes_value()`. -/
def rvHasBytes (vbs : List Nat) : Bool :=
  match lastW (parseFields vbs) 4 with
  | some (.lenDelim _) => true
  | _ => false

/-- Embeds `Value::bytes_value()` bytes. -/
def rvBytesValue (vbs : List Nat) : List Nat :=
  match lastW (parseFields vbs) 4 with
  | some (.lenDelim p) => p
  | _ => []

/-! ### `ValidateSingleNonEmptyMessage` (metrics.cc lines 79-125) -/

/-- Validation of a non-empty byte span expected to hold a Single envelope
for the given schema type and resolved type name; returns the inner payload. -/
def validateSingleNonEmptyMessage (ptr : List Nat) (schema_type : Nat)
    (message_type : String) : Except String (List Nat) :=
  if kMaxMessageLength < ptr.length then
    .error "Message has size larger than the maximum allowed message size"
  else if pbrIsRepeated ptr then
    .error "Cannot handle nested repeated messages"
  else
    let single := pbrSingleBytes ptr
    if sbrType single ≠ schema_type then
      .error ("Message field has wrong wire type " ++ toString (sbrType single))
    else if sbrTypeName single ≠ strBytes message_type then
      .error ("Field has wrong type (expected " ++ message_type ++ ", was " ++
        bytesToStdString (sbrTypeName single) ++ ")")
    else if ¬ sbrHasProtobuf single then
      .error "Message has no proto bytes"
    else if (sbrProtobuf single).length = 0 then
      .error "Field has zero size"
    else
      .ok (sbrProtobuf single)

/-! ### `SqlValue` (the 5-variant scalar boundary value; doubles carried as
their 64-bit IEEE bit pattern) -/

inductive SqlValue where
  | null
  | long (v : Int)
  | double (bits : Nat)
  | string (s : String)
  | bytes (b : List Nat)
  deriving DecidableEq, Repr

/-- Embeds `col.type == SqlValue::kBytes`. -/
def SqlValue.isBytes : SqlValue → Bool
  | .bytes _ => true
  | _ => false

/-- Range constraints tying the model values to the C++ 64-bit machine types. -/
def SqlValue.wfV : SqlValue → Prop
  | .long v => -(2 ^ 63) ≤ v ∧ v < 2 ^ 63
  | .double d => d < 2 ^ 64
  | _ => True

/-! ### `ProtoBuilder` (metrics.cc lines 129-445)

C++ methods return `base::Status` and mutate `message_`; they are embedded as
state transformers returning `(Status, new builder)` where `Status :=
Option String` (`none` = `base::OkStatus()`). -/

abbrev Status := Option String

structure ProtoBuilder where
  pool : DescriptorPool
  descriptor : ProtoDescriptor
  message : List Nat

/-- Embeds `ProtoBuilder::AppendLong` (lines 154-227). The fixed-kind cases call the
width-generic protozero `AppendFixed` with the `int64_t` argument, which
writes an 8-byte 64-bit record for all four fixed kinds. -/
def ProtoBuilder.appendLong (b : ProtoBuilder) (field_name : String) (value : Int)
    (is_inside_repeated : Bool := false) : Status × ProtoBuilder :=
  match b.descriptor.FindFieldByName field_name with
  | none =>
    (some ("Field with name " ++ field_name ++ " not found in proto type " ++
      b.descriptor.full_name), b)
  | some field =>
    if field.is_repeated && !is_inside_repeated then
      (some ("Unexpected long value for repeated field " ++ field_name ++
        " in proto type " ++ b.descriptor.full_name), b)
    else
      match field.type with
      | .int32 | .int64 | .uint32 | .bool =>
        (none, { b with message := b.message ++ encodeField field.number (.varint (toUInt64 value)) })
      | .enum =>
        match b.pool.FindDescriptorIdx field.resolved_type_name with
        | none =>
          (some ("Unable to find enum type " ++ field.resolved_type_name ++
            " to fill field " ++ field.name ++ " (in proto message " ++
            b.descriptor.full_name ++ ")"), b)
        | some idx =>
          let enum_desc := b.pool.getDescriptor idx
          match enum_desc.FindEnumString (toInt32 value) with
          | none =>
            (some ("Invalid enum value " ++ toString value ++ " in enum type " ++
              field.resolved_type_name ++ "; encountered while filling field " ++
              field.name ++ " (in proto message " ++ b.descriptor.full_name ++ ")"), b)
          | some _ =>
            (none, { b with message := b.message ++ encodeField field.number (.varint (toUInt64 value)) })
      | .sint32 | .sint64 =>
        (none, { b with message := b.message ++ encodeField field.number (.varint (zigZag value)) })
      | .fixed32 | .sfixed32 | .fixed64 | .sfixed64 =>
        (none, { b with message := b.message ++ encodeField field.number (.fixed64 (toUInt64 value)) })
      | .uint64 =>
        (some ("Field " ++ field.name ++ " (in proto message " ++ b.descriptor.full_name ++
          ") is using a uint64 type. uint64 in metric messages is not supported by trace " ++
          "processor; use an int64 field instead."), b)
      | _ =>
        (some ("Tried to write value of type long into field " ++ field.name ++
          " (in proto type " ++ b.descriptor.full_name ++ ") which has type " ++
          toString field.type.code), b)

/-- Embeds `ProtoBuilder::AppendDouble` (lines 229-265); `value` is the double's bit
pattern; the float branch narrows via `static_cast<float>`. -/
def ProtoBuilder.appendDouble (b : ProtoBuilder) (field_name : String) (value : Nat)
    (is_inside_repeated : Bool := false) : Status × ProtoBuilder :=
  match b.descriptor.FindFieldByName field_name with
  | none =>
    (some ("Field with name " ++ field_name ++ " not found in proto type " ++
      b.descriptor.full_name), b)
  | some field =>
    if field.is_repeated && !is_inside_repeated then
      (some ("Unexpected double value for repeated field " ++ field_name ++
        " in proto type " ++ b.descriptor.full_name), b)
    else
      match field.type with
      | .float =>
        (none, { b with message := b.message ++ encodeField field.number (.fixed32 (doubleToFloatBits value)) })
      | .double =>
        (none, { b with message := b.message ++ encodeField field.number (.fixed64 value) })
      | _ =>
        (some ("Tried to write value of type double into field " ++ field.name ++
          " (in proto type " ++ b.descriptor.full_name ++ ") which has type " ++
          toString field.type.code), b)

/-- Embeds `ProtoBuilder::AppendString` (lines 267-322). -/
def ProtoBuilder.appendString (b : ProtoBuilder) (field_name : String) (data : String)
    (is_inside_repeated : Bool := false) : Status × ProtoBuilder :=
  match b.descriptor.FindFieldByName field_name with
  | none =>
    (some ("Field with name " ++ field_name ++ " not found in proto type " ++
      b.descriptor.full_name), b)
  | some field =>
    if field.is_repeated && !is_inside_repeated then
      (some ("Unexpected string value for repeated field " ++ field_name ++
        " in proto type " ++ b.descriptor.full_name), b)
    else
      match field.type with
      | .string =>
        (none, { b with message := b.message ++ encodeField field.number (.lenDelim (strBytes data)) })
      | .enum =>
        match b.pool.FindDescriptorIdx field.resolved_type_name with
        | none =>
          (some ("Unable to find enum type " ++ field.resolved_type_name ++
            " to fill field " ++ field.name ++ " (in proto message " ++
            b.descriptor.full_name ++ ")"), b)
        | some idx =>
          let enum_desc := b.pool.getDescriptor idx
          match enum_desc.FindEnumValue data with
          | none =>
            (some ("Invalid enum string " ++ data ++ " in enum type " ++
              field.resolved_type_name ++ "; encountered while filling field " ++
              field.name ++ " (in proto message " ++ b.descriptor.full_name ++ ")"), b)
          | some enum_value =>
            (none, { b with message := b.message ++ encodeField field.number (.varint (toUInt64 enum_value)) })
      | _ =>
        (some ("Tried to write value of type string into field " ++ field.name ++
          " (in proto type " ++ b.descriptor.full_name ++ ") which has type " ++
          toString field.type.code), b)

/-- Embeds `ProtoBuilder::AppendSingleMessage` (lines 357-380). -/
def ProtoBuilder.appendSingleMessage (b : ProtoBuilder) (field : FieldDescriptor)
    (ptr : List Nat) : Status × ProtoBuilder :=
  if ptr.length = 0 then
    (none, { b with message := b.message ++ encodeField field.number (.lenDelim []) })
  else
    match validateSingleNonEmptyMessage ptr field.type.code field.resolved_type_name with
    | .error e =>
      (some ("[Field " ++ field.name ++ " in message " ++ b.descriptor.full_name ++ "]: " ++ e), b)
    | .ok inner =>
      (none, { b with message := b.message ++ encodeField field.number (.lenDelim inner) })

/-- The non-repeated tail of `ProtoBuilder::AppendBytes` (lines 339-355):
message dispatch, zero-size rejection, bytes-into-scalar rejection. -/
def ProtoBuilder.appendBytesCore (b : ProtoBuilder) (field : FieldDescriptor)
    (ptr : List Nat) : Status × ProtoBuilder :=
  if field.type = .message then b.appendSingleMessage field ptr
  else if ptr.length = 0 then
    (some ("Tried to write zero-sized value into field " ++ field.name ++
      " (in proto type " ++ b.descriptor.full_name ++ "). Nulls are only supported " ++
      "for message protos; all other types should ensure that nulls are not passed " ++
      "to proto builder functions by using the SQLite IFNULL/COALESCE functions."), b)
  else
    (some ("Tried to write value of type bytes into field " ++ field.name ++
      " (in proto type " ++ b.descriptor.full_name ++ ") which has type " ++
      toString field.type.code), b)

/-- The replay loop of `ProtoBuilder::AppendRepeated` (lines 403-422); every
replay passes `is_inside_repeated = true`, so the bytes case re-resolves the
field and takes the non-repeated tail of `AppendBytes`. -/
def ProtoBuilder.appendRepeatedGo (field_name : String) :
    ProtoBuilder → List (List Nat) → Status × ProtoBuilder
  | b, [] => (none, b)
  | b, vbs :: rest =>
    let r :=
      if rvHasInt vbs then b.appendLong field_name (rvIntValue vbs) true
      else if rvHasDouble vbs then b.appendDouble field_name (rvDoubleBits vbs) true
      else if rvHasString vbs then
        b.appendString field_name (bytesToStdString (rvStringBytes vbs)) true
      else if rvHasBytes vbs then
        match b.descriptor.FindFieldByName field_name with
        | none =>
          (some ("Field with name " ++ field_name ++ " not found in proto type " ++
            b.descriptor.full_name), b)
        | some f2 => b.appendBytesCore f2 (rvBytesValue vbs)
      else (some "Unknown type in repeated field", b)
    match r with
    | (some e, b2) => (some e, b2)
    | (none, b2) => ProtoBuilder.appendRepeatedGo field_name b2 rest

/-- Embeds `ProtoBuilder::AppendRepeated` (lines 382-424). -/
def ProtoBuilder.appendRepeated (b : ProtoBuilder) (field : FieldDescriptor)
    (ptr : List Nat) : Status × ProtoBuilder :=
  if kMaxMessageLength < ptr.length then
    (some ("Message passed to field " ++ field.name ++ " in proto message " ++
      b.descriptor.full_name ++ " has size larger than the maximum allowed message size"), b)
  else if ¬ pbrIsRepeated ptr then
    (some ("Unexpected message value for repeated field " ++ field.name ++
      " in proto type " ++ b.descriptor.full_name), b)
  else
    ProtoBuilder.appendRepeatedGo field.name b (rbrValues (pbrRepeatedBytes ptr))

/-- Embeds `ProtoBuilder::AppendBytes` (lines 324-355). -/
def ProtoBuilder.appendBytes (b : ProtoBuilder) (field_name : String) (ptr : List Nat)
    (is_inside_repeated : Bool := false) : Status × ProtoBuilder :=
  match b.descriptor.FindFieldByName field_name with
  | none =>
    (some ("Field with name " ++ field_name ++ " not found in proto type " ++
      b.descriptor.full_name), b)
  | some field =>
    if field.is_repeated && !is_inside_repeated then b.appendRepeated field ptr
    else b.appendBytesCore field ptr

/-- Embeds `ProtoBuilder::AppendSqlValue` (lines 133-152). -/
def ProtoBuilder.appendSqlValue (b : ProtoBuilder) (field_name : String)
    (value : SqlValue) : Status × ProtoBuilder :=
  match value with
  | .long v => b.appendLong field_name v
  | .double d => b.appendDouble field_name d
  | .string s => b.appendString field_name s
  | .bytes bs => b.appendBytes field_name bs
  | .null => (none, b)

/-- Embeds `ProtoBuilder::SerializeRaw` (lines 443-445). -/
def ProtoBuilder.serializeRaw (b : ProtoBuilder) : List Nat :=
  b.message

/-- Embeds `ProtoBuilder::SerializeToProtoBuilderResult` (lines 426-441): empty raw
serialization short-circuits to an empty result; otherwise wraps in a Single
envelope declaring wire kind `message` and the builder's own type name. -/
def ProtoBuilder.serializeToProtoBuilderResult (b : ProtoBuilder) : List Nat :=
  if b.serializeRaw.isEmpty then []
  else
    encodeField 1 (.varint 0) ++
      encodeField 2 (.lenDelim
        (encodeField 1 (.varint 11) ++
          encodeField 2 (.lenDelim (strBytes b.descriptor.full_name)) ++
          encodeField 3 (.lenDelim b.serializeRaw)))

/-! ### `RepeatedFieldBuilder` (metrics.cc lines 447-500) -/

/-- One accumulated `RepeatedBuilderResult::Value` element. -/
inductive RepValue where
  | int (v : Int)
  | double (bits : Nat)
  | str (bs : List Nat)
  | bytes (bs : List Nat)
  deriving DecidableEq, Repr

structure RepeatedFieldBuilder where
  values : List RepValue
  has_data : Bool

def RepeatedFieldBuilder.init : RepeatedFieldBuilder := ⟨[], false⟩

def RepeatedFieldBuilder.addLong (b : RepeatedFieldBuilder) (v : Int) : RepeatedFieldBuilder :=
  ⟨b.values ++ [.int v], true⟩

def RepeatedFieldBuilder.addDouble (b : RepeatedFieldBuilder) (bits : Nat) : RepeatedFieldBuilder :=
  ⟨b.values ++ [.double bits], true⟩

def RepeatedFieldBuilder.addString (b : RepeatedFieldBuilder) (s : String) : RepeatedFieldBuilder :=
  ⟨b.values ++ [.str (strBytes s)], true⟩

def RepeatedFieldBuilder.addBytes (b : RepeatedFieldBuilder) (bs : List Nat) : RepeatedFieldBuilder :=
  ⟨b.values ++ [.bytes bs], true⟩

/-- Embeds `RepeatedFieldBuilder::AddSqlValue` (lines 451-471); always returns
`base::OkStatus()`, so only the state transition is modelled. A Null value is
added as an empty-bytes element (`AddBytes(nullptr, 0)`). -/
def RepeatedFieldBuilder.addSqlValue (b : RepeatedFieldBuilder) (value : SqlValue) :
    RepeatedFieldBuilder :=
  match value with
  | .long v => b.addLong v
  | .double d => b.addDouble d
  | .string s => b.addString s
  | .bytes bs => b.addBytes bs
  | .null => b.addBytes []

/-- Wire encoding of one accumulated element (the `set_*_value` setters). -/
def encodeRepValue : RepValue → List Nat
  | .int v => encodeField 1 (.varint (toUInt64 v))
  | .double d => encodeField 2 (.fixed64 d)
  | .str bs => encodeField 3 (.lenDelim bs)
  | .bytes bs => encodeField 4 (.lenDelim bs)

/-- Wire encoding of the accumulated `value` list of a `RepeatedBuilderResult`. -/
def encodeRepeatedValues : List RepValue → List Nat
  | [] => []
  | v :: vs => encodeField 1 (.lenDelim (encodeRepValue v)) ++ encodeRepeatedValues vs

/-- Embeds `RepeatedFieldBuilder::SerializeToProtoBuilderResult` (lines 493-500):
empty result when no data was ever added; otherwise the serialized envelope.
The nested `repeated` message was started at construction, so its bytes
precede the `is_repeated` flag written at serialization time. -/
def RepeatedFieldBuilder.serializeToProtoBuilderResult (b : RepeatedFieldBuilder) : List Nat :=
  if !b.has_data then []
  else encodeField 3 (.lenDelim (encodeRepeatedValues b.values)) ++ encodeField 1 (.varint 1)

/-- What a conforming decoder of the Repeated envelope recovers, element-wise
(mirrors the `has_*`/getter cascade of `AppendRepeated`). -/
def decodeRepeatedElems (bs : List Nat) : List RepValue :=
  (rbrValues (pbrRepeatedBytes bs)).map (fun vbs =>
    if rvHasInt vbs then .int (rvIntValue vbs)
    else if rvHasDouble vbs then .double (rvDoubleBits vbs)
    else if rvHasString vbs then .str (rvStringBytes vbs)
    else .bytes (rvBytesValue vbs))

/-- The element a Typed Value is accumulated as (`add`'s documented mapping). -/
def sqlToRep : SqlValue → RepValue
  | .null => .bytes []
  | .long v => .int v
  | .double d => .double d
  | .string s => .str (strBytes s)
  | .bytes bs => .bytes bs

/-- Range constraints tying accumulated elements to the C++ machine types. -/
def RepValue.wfR : RepValue → Prop
  | .int v => -(2 ^ 63) ≤ v ∧ v < 2 ^ 63
  | .double d => d < 2 ^ 64
  | _ => True

/-! ### `TemplateReplace` (metrics.cc lines 502-524)

The ECMAScript regex `\{\{\s*(\w*)\s*\}\}` is embedded as a deterministic
scanner: the character classes `\s`, `\w` and the closing braces are mutually
disjoint, so greedy maximal munch without backtracking finds exactly the
regex's leftmost matches. -/

/-- ECMAScript `\w` (ASCII word character). -/
def wordChar (c : Char) : Bool :=
  c.isAlphanum || c == '_'

/-- ECMAScript `\s` (whitespace). -/
def spaceChar (c : Char) : Bool :=
  c == ' ' || c == '\t' || c == '\n' || c == '\x0b' || c == '\x0c' || c == '\r'

/-- Recognize the closing `\}\}` of a token; returns the text after it. -/
def closeBraces : List Char → Option (List Char)
  | d1 :: d2 :: r3 => if d1 = '\x7d' ∧ d2 = '\x7d' then some r3 else none
  | _ => none

/-- Try to match `\{\{\s*(\w*)\s*\}\}` at the head of the text; on success
return the captured identifier and the text after the match. -/
def matchToken : List Char → Option (String × List Char)
  | c1 :: c2 :: rest =>
    if c1 = '\x7b' ∧ c2 = '\x7b' then
      let r1 := rest.dropWhile spaceChar
      let word := r1.takeWhile wordChar
      let r2 := (r1.dropWhile wordChar).dropWhile spaceChar
      match closeBraces r2 with
      | some r3 => some (String.mk word, r3)
      | none => none
    else none
  | _ => none

/-- The scan-and-substitute loop of `TemplateReplace`: returns (result code,
accumulated output). An unmapped identifier stops the scan with code 1,
leaving the output truncated at the failing token, exactly as the C++ leaves
`*out` when it returns early. Fuel `text.length` always suffices since every
step consumes at least one character. -/
def templateReplaceAux (subs : List (String × String)) : Nat → List Char → Nat × List Char
  | 0, _ => (0, [])
  | _ + 1, [] => (0, [])
  | f + 1, c :: cs =>
    match matchToken (c :: cs) with
    | some (id, rest) =>
      match subs.find? (fun p => p.1 == id) with
      | none => (1, [])
      | some p =>
        let r := templateReplaceAux subs f rest
        (r.1, p.2.data ++ r.2)
    | none =>
      let r := templateReplaceAux subs f cs
      (r.1, c :: r.2)

/-- Embeds `TemplateReplace`: returns the C `int` result (0 = success, 1 = unmapped
identifier) and the output accumulated in `*out`. -/
def templateReplace (raw_text : String) (substitutions : List (String × String)) :
    Nat × String :=
  let r := templateReplaceAux substitutions raw_text.data.length raw_text.data
  (r.1, String.mk r.2)

/-- The identifiers scanned, in scan order (the regex iteration of
`TemplateReplace`, independent of the substitution map). -/
def scannedIdsAux : Nat → List Char → List String
  | 0, _ => []
  | _ + 1, [] => []
  | f + 1, c :: cs =>
    match matchToken (c :: cs) with
    | some (id, rest) => id :: scannedIdsAux f rest
    | none => scannedIdsAux f cs

def scannedIds (raw : String) : List String :=
  scannedIdsAux raw.data.length raw.data

/-! ### Statement splitting (perfetto `base::SplitString(sql, ";\n")`, from
`base/string_utils.cc`, outside `src/`): splits at every occurrence of the
two-character delimiter, dropping empty pieces (`if (next > start)`), keeping
whitespace-only pieces verbatim. -/

/-- Index of the first occurrence of the delimiter `;\n`. -/
def findDelim : List Char → Option Nat
  | [] => none
  | c :: cs =>
    if [';', '\n'].isPrefixOf (c :: cs) then some 0
    else (findDelim cs).map (fun i => i + 1)

def splitStatementsAux : Nat → List Char → List (List Char)
  | 0, _ => []
  | f + 1, text =>
    match findDelim text with
    | none => if text.isEmpty then [] else [text]
    | some i =>
      let rest := text.drop (i + 2)
      if i = 0 then splitStatementsAux f rest
      else text.take i :: splitStatementsAux f rest

/-- Embeds `base::SplitString(sql, ";\n")`. -/
def splitStatements (sql : String) : List String :=
  (splitStatementsAux sql.data.length sql.data).map String.mk

/-! ### `ComputeMetrics` (metrics.cc lines 766-833)

The external SQL engine (`TraceProcessor::ExecuteQuery`) is modelled from the
spec as a function from a query string to a result: the rows it yields in
order, the column count, and the status observed once iteration passes the
last row (`finalStatus`; errors before the first row are `rows = []` with a
`finalStatus` error). The C++ out-parameter `metrics_proto` is assigned only
on full success, so the embedding returns `Except String (List Nat)`. The
outer `Option` layer marks undefined behaviour: `none` is reached exactly
where the C++ calls `base::Optional::value()` on an absent optional. -/

structure QueryResult where
  rows : List (List SqlValue)
  columnCount : Nat
  finalStatus : Option String

abbrev TraceProcessor := String → QueryResult

/-- One `ExecuteQuery(query); it.Next(); RETURN_IF_ERROR(it.Status())` step
for a script statement (lines 785-790). -/
def stepStatus (r : QueryResult) : Option String :=
  if r.rows.isEmpty then r.finalStatus else none

/-- The statement loop of `ComputeMetrics`: runs each statement in order,
propagating the first error. -/
def runStatements (tp : TraceProcessor) : List String → Option String
  | [] => none
  | q :: qs =>
    match stepStatus (tp q) with
    | some e => some e
    | none => runStatements tp qs

/-- Embeds `SqlMetricFile` (sql_metrics.h, outside `src/`; modelled from the spec,
section 3 "Sql Metric File": path, script text, optional designated output
table name, optional proto field name). -/
structure SqlMetricFile where
  path : String
  sql : String
  output_table_name : Option String
  proto_field_name : Option String
  deriving DecidableEq, Repr

/-- The per-metric loop of `ComputeMetrics` over the remaining requested
names, from the current root-builder state. -/
def computeMetricsGo (tp : TraceProcessor) (sql_metrics : List SqlMetricFile) :
    ProtoBuilder → List String → Option (Except String (List Nat))
  | b, [] => some (.ok b.serializeRaw)
  | b, name :: rest =>
    match sql_metrics.find? (fun m => m.proto_field_name == some name) with
    | none => some (.error ("Unknown metric " ++ name))
    | some sql_metric =>
      match runStatements tp (splitStatements sql_metric.sql) with
      | some e => some (.error e)
      | none =>
        match sql_metric.output_table_name with
        | none => none
        | some table =>
          let r := tp ("SELECT * FROM " ++ table ++ ";")
          match stepStatus r with
          | some e => some (.error e)
          | none =>
            match sql_metric.proto_field_name with
            | none => none
            | some field_name =>
              match r.rows with
              | [] => computeMetricsGo tp sql_metrics (b.appendBytes field_name [] false).2 rest
              | row :: more =>
                if r.columnCount ≠ 1 then
                  some (.error ("Output table " ++ table ++ " should have exactly one column"))
                else
                  let col := row.getD 0 SqlValue.null
                  if !col.isBytes then
                    some (.error ("Output table " ++ table ++ " column has invalid type"))
                  else
                    match b.appendSqlValue field_name col with
                    | (some e, _) => some (.error e)
                    | (none, b2) =>
                      if more.isEmpty then
                        match r.finalStatus with
                        | some e => some (.error e)
                        | none => computeMetricsGo tp sql_metrics b2 rest
                      else
                        some (.error ("Output table " ++ table ++ " should have at most one row"))

/-- Embeds `ComputeMetrics` (lines 766-833). -/
def computeMetrics (tp : TraceProcessor) (metrics_to_compute : List String)
    (sql_metrics : List SqlMetricFile) (pool : DescriptorPool)
    (root_descriptor : ProtoDescriptor) : Option (Except String (List Nat)) :=
  computeMetricsGo tp sql_metrics ⟨pool, root_descriptor, []⟩ metrics_to_compute

/-! ### Writer-side Single envelopes (what `HeapBuffered<ProtoBuilderResult>`
with `set_single()` produces: `is_repeated` then the nested single message,
whose `protobuf` field is present only when `set_protobuf` was called). -/

/-- Serialized `SingleBuilderResult` with optional `protobuf` payload. -/
def encodeSingleInner (t : Nat) (type_name : List Nat) (payload : Option (List Nat)) : List Nat :=
  encodeField 1 (.varint t) ++
    (encodeField 2 (.lenDelim type_name) ++
      (match payload with
       | some p => encodeField 3 (.lenDelim p)
       | none => []))

/-- Serialized Single `ProtoBuilderResult` envelope. -/
def encodeSingleEnvelope (t : Nat) (type_name : List Nat) (payload : Option (List Nat)) : List Nat :=
  encodeField 1 (.varint 0) ++ encodeField 2 (.lenDelim (encodeSingleInner t type_name payload))

/-! ### Round-trip lemmas for the wire primitives -/

theorem varintDecode_encodeAux (f : Nat) :
    ∀ n r, n < f → varintDecode (varintEncodeAux f n ++ r) = some (n, r) := by
  induction f with
  | zero => intro n r h; omega
  | succ f ih =>
    intro n r h
    by_cases h128 : n < 128
    · simp [varintEncodeAux, h128, varintDecode]
    · have hdiv : n / 128 < f := by
        have h1 : n / 128 < n := Nat.div_lt_self (by omega) (by omega)
        omega
      have hb : ¬ (n % 128 + 128 < 128) := by omega
      simp only [varintEncodeAux, if_neg h128, List.cons_append, varintDecode, if_neg hb,
        ih (n / 128) r hdiv]
      have heq : (n % 128 + 128) % 128 + 128 * (n / 128) = n := by omega
      rw [heq]

theorem varintDecode_encode (n : Nat) (r : List Nat) :
    varintDecode (varintEncode n ++ r) = some (n, r) :=
  varintDecode_encodeAux (n + 1) n r (by omega)

theorem varintDecode_length :
    ∀ bs v r, varintDecode bs = some (v, r) → r.length < bs.length := by
  intro bs
  induction bs with
  | nil => intro v r h; simp [varintDecode] at h
  | cons b tl ih =>
    intro v r h
    by_cases hb : b < 128
    · simp [varintDecode, hb] at h
      simp [← h.2]
    · simp only [varintDecode, if_neg hb] at h
      cases htl : varintDecode tl with
      | none => rw [htl] at h; simp at h
      | some p =>
        rw [htl] at h
        simp at h
        have := ih p.1 p.2 (by rw [htl])
        rw [← h.2]
        simp
        omega

theorem leBytes_length (k n : Nat) : (leBytes k n).length = k := by
  induction k generalizing n with
  | zero => simp [leBytes]
  | succ k ih => simp [leBytes, ih]

theorem leVal_leBytes (k n : Nat) : leVal (leBytes k n) = n % 256 ^ k := by
  induction k generalizing n with
  | zero => simp [leBytes, leVal, Nat.mod_one]
  | succ k ih =>
    simp only [leBytes, leVal, ih]
    rw [Nat.pow_succ, Nat.mul_comm (256 ^ k) 256, Nat.mod_mul]

theorem varintEncode_length_pos (n : Nat) : 0 < (varintEncode n).length := by
  unfold varintEncode varintEncodeAux
  by_cases h : n < 128 <;> simp [h]

theorem encodeField_length_pos (fn : Nat) (w : WireValue) : 0 < (encodeField fn w).length := by
  cases w <;> simp [encodeField] <;> exact Or.inl (varintEncode_length_pos _)

/-- Parsing is insensitive to extra fuel, as each step consumes at least one byte. -/
theorem parseFieldsAux_fuel :
    ∀ f g bs, bs.length ≤ f → bs.length ≤ g → parseFieldsAux f bs = parseFieldsAux g bs := by
  intro f
  induction f with
  | zero =>
    intro g bs hf _
    have hbs : bs = [] := by cases bs <;> simp_all
    subst hbs
    cases g <;> rfl
  | succ f ih =>
    intro g bs hf hg
    cases g with
    | zero =>
      have hbs : bs = [] := by cases bs <;> simp_all
      subst hbs; rfl
    | succ g =>
      cases bs with
      | nil => rfl
      | cons b tl =>
        show parseFieldsAux (f + 1) (b :: tl) = parseFieldsAux (g + 1) (b :: tl)
        simp only [parseFieldsAux]
        cases hdec : varintDecode (b :: tl) with
        | none => rfl
        | some p =>
          obtain ⟨tag, rest⟩ := p
          have hrest : rest.length < (b :: tl).length := varintDecode_length _ _ _ hdec
          by_cases hfn : tag / 8 = 0
          · simp [hfn]
          · simp only [if_neg hfn]
            have hrf : rest.length ≤ f := by simp_all; omega
            have hrg : rest.length ≤ g := by simp_all; omega
            have h8 : tag % 8 = 0 ∨ tag % 8 = 1 ∨ tag % 8 = 2 ∨ tag % 8 = 3 ∨ tag % 8 = 4 ∨
                tag % 8 = 5 ∨ 6 ≤ tag % 8 := by omega
            rcases h8 with h | h | h | h | h | h | h
            · simp only [h]
              cases h2 : varintDecode rest with
              | none => rfl
              | some q =>
                obtain ⟨v, r2⟩ := q
                have hr2 : r2.length < rest.length := varintDecode_length _ _ _ h2
                simp only [h2]
                rw [ih g r2 (by omega) (by omega)]
            · simp only [h]
              by_cases h8l : 8 ≤ rest.length
              · simp only [if_pos h8l]
                rw [ih g (rest.drop 8) (by simp; omega) (by simp; omega)]
              · simp [h8l]
            · simp only [h]
              cases h2 : varintDecode rest with
              | none => rfl
              | some q =>
                obtain ⟨l, r2⟩ := q
                have hr2 : r2.length < rest.length := varintDecode_length _ _ _ h2
                simp only [h2]
                by_cases hl : l ≤ r2.length
                · simp only [if_pos hl]
                  rw [ih g (r2.drop l) (by simp; omega) (by simp; omega)]
                · simp [hl]
            · simp [h]
            · simp [h]
            · simp only [h]
              by_cases h4l : 4 ≤ rest.length
              · simp only [if_pos h4l]
                rw [ih g (rest.drop 4) (by simp; omega) (by simp; omega)]
              · simp [h4l]
            · obtain ⟨m, hm⟩ : ∃ m, tag % 8 = m + 6 := ⟨tag % 8 - 6, by omega⟩
              simp [hm]

theorem parseFieldsAux_of_length (f : Nat) (bs : List Nat) (h : bs.length ≤ f) :
    parseFieldsAux f bs = parseFields bs :=
  parseFieldsAux_fuel f bs.length bs h le_rfl

theorem parseFields_nil : parseFields [] = [] := rfl

/-- The central parsing lemma: a well-formed field record at the head of a
byte stream parses to exactly that record followed by the parse of the rest. -/
theorem parseFields_cons (fn : Nat) (w : WireValue) (rest : List Nat)
    (hfn : 0 < fn) (hw : w.wf) :
    parseFields (encodeField fn w ++ rest) = (fn, w) :: parseFields rest := by
  obtain ⟨b, tl, hb⟩ : ∃ b tl, encodeField fn w ++ rest = b :: tl := by
    cases h : encodeField fn w ++ rest with
    | nil =>
      exfalso
      have hp := encodeField_length_pos fn w
      have hlen : (encodeField fn w).length + rest.length = 0 := by
        have h2 := congrArg List.length h
        simpa using h2
      omega
    | cons x xs => exact ⟨x, xs, rfl⟩
  have hrest : rest.length ≤ tl.length := by
    have hp := encodeField_length_pos fn w
    have hlen2 : (encodeField fn w).length + rest.length = tl.length + 1 := by
      have h := congrArg List.length hb
      simpa using h
    omega
  rw [parseFields, hb]
  show parseFieldsAux (tl.length + 1) (b :: tl) = _
  simp only [parseFieldsAux]
  rw [← hb]
  cases w with
  | varint v =>
    rw [show encodeField fn (.varint v) ++ rest =
        varintEncode (fn * 8) ++ (varintEncode v ++ rest) by
      simp [encodeField]]
    rw [varintDecode_encode]
    have h1 : fn * 8 / 8 = fn := by omega
    have h2 : fn * 8 % 8 = 0 := by omega
    simp only [h1, h2, if_neg (by omega : ¬ fn = 0), varintDecode_encode,
      parseFieldsAux_of_length tl.length rest hrest]
  | fixed64 v =>
    rw [show encodeField fn (.fixed64 v) ++ rest =
        varintEncode (fn * 8 + 1) ++ (leBytes 8 v ++ rest) by
      simp [encodeField]]
    rw [varintDecode_encode]
    have h1 : (fn * 8 + 1) / 8 = fn := by omega
    have h2 : (fn * 8 + 1) % 8 = 1 := by omega
    have hlen : 8 ≤ (leBytes 8 v ++ rest).length := by
      simp [leBytes_length]
    have htake : (leBytes 8 v ++ rest).take 8 = leBytes 8 v := by
      rw [show (8 : Nat) = (leBytes 8 v).length by rw [leBytes_length]]
      exact List.take_left _ _
    have hdrop : (leBytes 8 v ++ rest).drop 8 = rest := by
      rw [show (8 : Nat) = (leBytes 8 v).length by rw [leBytes_length]]
      exact List.drop_left _ _
    have hval : leVal (leBytes 8 v) = v := by
      rw [leVal_leBytes]
      exact Nat.mod_eq_of_lt (by simpa [WireValue.wf] using hw)
    simp only [h1, h2, if_neg (by omega : ¬ fn = 0), if_pos hlen, htake, hdrop, hval,
      parseFieldsAux_of_length tl.length rest hrest]
  | lenDelim payload =>
    rw [show encodeField fn (.lenDelim payload) ++ rest =
        varintEncode (fn * 8 + 2) ++ (varintEncode payload.length ++ (payload ++ rest)) by
      simp [encodeField]]
    rw [varintDecode_encode]
    have h1 : (fn * 8 + 2) / 8 = fn := by omega
    have h2 : (fn * 8 + 2) % 8 = 2 := by omega
    have hlen : payload.length ≤ (payload ++ rest).length := by simp
    have htake : (payload ++ rest).take payload.length = payload := List.take_left _ _
    have hdrop : (payload ++ rest).drop payload.length = rest := List.drop_left _ _
    simp only [h1, h2, if_neg (by omega : ¬ fn = 0), varintDecode_encode, if_pos hlen,
      htake, hdrop, parseFieldsAux_of_length tl.length rest hrest]
  | fixed32 v =>
    rw [show encodeField fn (.fixed32 v) ++ rest =
        varintEncode (fn * 8 + 5) ++ (leBytes 4 v ++ rest) by
      simp [encodeField]]
    rw [varintDecode_encode]
    have h1 : (fn * 8 + 5) / 8 = fn := by omega
    have h2 : (fn * 8 + 5) % 8 = 5 := by omega
    have hlen : 4 ≤ (leBytes 4 v ++ rest).length := by
      simp [leBytes_length]
    have htake : (leBytes 4 v ++ rest).take 4 = leBytes 4 v := by
      rw [show (4 : Nat) = (leBytes 4 v).length by rw [leBytes_length]]
      exact List.take_left _ _
    have hdrop : (leBytes 4 v ++ rest).drop 4 = rest := by
      rw [show (4 : Nat) = (leBytes 4 v).length by rw [leBytes_length]]
      exact List.drop_left _ _
    have hval : leVal (leBytes 4 v) = v := by
      rw [leVal_leBytes]
      exact Nat.mod_eq_of_lt (by simpa [WireValue.wf] using hw)
    simp only [h1, h2, if_neg (by omega : ¬ fn = 0), if_pos hlen, htake, hdrop, hval,
      parseFieldsAux_of_length tl.length rest hrest]

/-- Parse of a single well-formed record. -/
theorem parseFields_single (fn : Nat) (w : WireValue) (hfn : 0 < fn) (hw : w.wf) :
    parseFields (encodeField fn w) = [(fn, w)] := by
  have := parseFields_cons fn w [] hfn hw
  simpa [parseFields_nil] using this

/-! ### Arithmetic round-trip lemmas for the scalar kinds -/

theorem toUInt64_lt (v : Int) : toUInt64 v < 2 ^ 64 := by
  unfold toUInt64
  omega

theorem toUInt64_of_nonneg (v : Int) (h1 : 0 ≤ v) (h2 : v < 2 ^ 64) :
    toUInt64 v = v.toNat := by
  unfold toUInt64
  omega

theorem toSigned64_toUInt64 (v : Int) (h1 : -(2 ^ 63) ≤ v) (h2 : v < 2 ^ 63) :
    toSigned64 (toUInt64 v) = v := by
  simp only [toSigned64, toUInt64]
  split <;> omega

theorem toSigned32_toUInt64 (v : Int) (h1 : -(2 ^ 31) ≤ v) (h2 : v < 2 ^ 31) :
    toSigned32 (toUInt64 v) = v := by
  simp only [toSigned32, toUInt64]
  split <;> omega

theorem uint32_toUInt64 (v : Int) (h1 : 0 ≤ v) (h2 : v < 2 ^ 32) :
    toUInt64 v % 2 ^ 32 = v.toNat := by
  unfold toUInt64
  omega

theorem bool_toUInt64 (v : Int) (h : v = 0 ∨ v = 1) :
    ((if toUInt64 v = 0 then (0 : Int) else 1) : Int) = v := by
  unfold toUInt64
  split <;> omega

theorem unZigZag64_zigZag (v : Int) (h1 : -(2 ^ 63) ≤ v) (h2 : v < 2 ^ 63) :
    unZigZag64 (zigZag v) = v := by
  simp only [unZigZag64, zigZag]
  split <;> rename_i hv <;> split <;> omega

theorem unZigZag32_zigZag (v : Int) (h1 : -(2 ^ 31) ≤ v) (h2 : v < 2 ^ 31) :
    unZigZag32 (zigZag v) = v := by
  simp only [unZigZag32, zigZag]
  split <;> rename_i hv <;> split <;> omega

/-! ### Claim C1 -/

/-- C1 (counterexample): the round-trip claim fails for the `fixed32` wire
kind. `AppendLong` on a non-repeated `fixed32` field with value 1 succeeds,
but serializes the record with the 64-bit wire type (tag byte 0x09 =
field 1, wire type 1, followed by 8 bytes), so a conforming protobuf decoder
of a `fixed32` field (wire type 5) does not recover the value. -/
theorem c1_fixed32_counterexample :
    ((⟨⟨[]⟩, ⟨"T", [⟨"f", 1, .fixed32, false, ""⟩], []⟩, []⟩ : ProtoBuilder).appendLong
        "f" 1).1 = none ∧
    ((⟨⟨[]⟩, ⟨"T", [⟨"f", 1, .fixed32, false, ""⟩], []⟩, []⟩ : ProtoBuilder).appendLong
        "f" 1).2.serializeRaw = [9, 1, 0, 0, 0, 0, 0, 0, 0] ∧
    recoverFixed32
      ((⟨⟨[]⟩, ⟨"T", [⟨"f", 1, .fixed32, false, ""⟩], []⟩, []⟩ : ProtoBuilder).appendLong
        "f" 1).2.serializeRaw 1 = none := by
  decide

/-- C1 (amended): appending a scalar value to a fresh builder and serializing
raw round-trips through a conforming protobuf decoder for the kinds int32,
int64, uint32, bool, sint32, sint64, fixed64, double (as 64-bit bit pattern)
and string, for values in the destination kind's range. (`fixed32` is
excluded: it is serialized with the 64-bit wire type, see the counterexample;
`float` narrows the double to 32-bit IEEE, so only the narrowed value is
recovered.) -/
theorem c1_append_serialize_round_trip
    (pool : DescriptorPool) (desc : ProtoDescriptor) (name : String) (fd : FieldDescriptor)
    (hfind : desc.FindFieldByName name = some fd)
    (hnum : 0 < fd.number)
    (hrep : fd.is_repeated = false) :
    (fd.type = .int32 → ∀ v : Int, -(2 ^ 31) ≤ v → v < 2 ^ 31 →
      ((⟨pool, desc, []⟩ : ProtoBuilder).appendLong name v).1 = none ∧
      recoverInt32 ((⟨pool, desc, []⟩ : ProtoBuilder).appendLong name v).2.serializeRaw
        fd.number = some v) ∧
    (fd.type = .int64 → ∀ v : Int, -(2 ^ 63) ≤ v → v < 2 ^ 63 →
      ((⟨pool, desc, []⟩ : ProtoBuilder).appendLong name v).1 = none ∧
      recoverInt64 ((⟨pool, desc, []⟩ : ProtoBuilder).appendLong name v).2.serializeRaw
        fd.number = some v) ∧
    (fd.type = .uint32 → ∀ v : Int, 0 ≤ v → v < 2 ^ 32 →
      ((⟨pool, desc, []⟩ : ProtoBuilder).appendLong name v).1 = none ∧
      recoverUint32 ((⟨pool, desc, []⟩ : ProtoBuilder).appendLong name v).2.serializeRaw
        fd.number = some v.toNat) ∧
    (fd.type = .bool → ∀ v : Int, v = 0 ∨ v = 1 →
      ((⟨pool, desc, []⟩ : ProtoBuilder).appendLong name v).1 = none ∧
      recoverBool ((⟨pool, desc, []⟩ : ProtoBuilder).appendLong name v).2.serializeRaw
        fd.number = some v) ∧
    (fd.type = .sint32 → ∀ v : Int, -(2 ^ 31) ≤ v → v < 2 ^ 31 →
      ((⟨pool, desc, []⟩ : ProtoBuilder).appendLong name v).1 = none ∧
      recoverSint32 ((⟨pool, desc, []⟩ : ProtoBuilder).appendLong name v).2.serializeRaw
        fd.number = some v) ∧
    (fd.type = .sint64 → ∀ v : Int, -(2 ^ 63) ≤ v → v < 2 ^ 63 →
      ((⟨pool, desc, []⟩ : ProtoBuilder).appendLong name v).1 = none ∧
      recoverSint64 ((⟨pool, desc, []⟩ : ProtoBuilder).appendLong name v).2.serializeRaw
        fd.number = some v) ∧
    (fd.type = .fixed64 → ∀ v : Int, 0 ≤ v → v < 2 ^ 63 →
      ((⟨pool, desc, []⟩ : ProtoBuilder).appendLong name v).1 = none ∧
      recoverFixed64 ((⟨pool, desc, []⟩ : ProtoBuilder).appendLong name v).2.serializeRaw
        fd.number = some v.toNat) ∧
    (fd.type = .double → ∀ d : Nat, d < 2 ^ 64 →
      ((⟨pool, desc, []⟩ : ProtoBuilder).appendDouble name d).1 = none ∧
      recoverDouble ((⟨pool, desc, []⟩ : ProtoBuilder).appendDouble name d).2.serializeRaw
        fd.number = some d) ∧
    (fd.type = .string → ∀ str : String,
      ((⟨pool, desc, []⟩ : ProtoBuilder).appendString name str).1 = none ∧
      recoverString ((⟨pool, desc, []⟩ : ProtoBuilder).appendString name str).2.serializeRaw
        fd.number = some (strBytes str)) := by
  refine ⟨?_, ?_, ?_, ?_, ?_, ?_, ?_, ?_, ?_⟩
  · intro htype v h1 h2
    have happ : (⟨pool, desc, []⟩ : ProtoBuilder).appendLong name v =
        (none, ⟨pool, desc, encodeField fd.number (.varint (toUInt64 v))⟩) := by
      simp [ProtoBuilder.appendLong, hfind, hrep, htype]
    have hp := parseFields_single fd.number (.varint (toUInt64 v)) hnum trivial
    rw [happ]
    refine ⟨rfl, ?_⟩
    simp [ProtoBuilder.serializeRaw, recoverInt32, recoverVarint, hp, lastW,
      toSigned32_toUInt64 v h1 h2]
  · intro htype v h1 h2
    have happ : (⟨pool, desc, []⟩ : ProtoBuilder).appendLong name v =
        (none, ⟨pool, desc, encodeField fd.number (.varint (toUInt64 v))⟩) := by
      simp [ProtoBuilder.appendLong, hfind, hrep, htype]
    have hp := parseFields_single fd.number (.varint (toUInt64 v)) hnum trivial
    rw [happ]
    refine ⟨rfl, ?_⟩
    simp [ProtoBuilder.serializeRaw, recoverInt64, recoverVarint, hp, lastW,
      toSigned64_toUInt64 v h1 h2]
  · intro htype v h1 h2
    have happ : (⟨pool, desc, []⟩ : ProtoBuilder).appendLong name v =
        (none, ⟨pool, desc, encodeField fd.number (.varint (toUInt64 v))⟩) := by
      simp [ProtoBuilder.appendLong, hfind, hrep, htype]
    have hp := parseFields_single fd.number (.varint (toUInt64 v)) hnum trivial
    rw [happ]
    refine ⟨rfl, ?_⟩
    simp [ProtoBuilder.serializeRaw, recoverUint32, recoverVarint, hp, lastW]
    unfold toUInt64
    omega
  · intro htype v hv
    have happ : (⟨pool, desc, []⟩ : ProtoBuilder).appendLong name v =
        (none, ⟨pool, desc, encodeField fd.number (.varint (toUInt64 v))⟩) := by
      simp [ProtoBuilder.appendLong, hfind, hrep, htype]
    have hp := parseFields_single fd.number (.varint (toUInt64 v)) hnum trivial
    rw [happ]
    refine ⟨rfl, ?_⟩
    simp [ProtoBuilder.serializeRaw, recoverBool, recoverVarint, hp, lastW,
      bool_toUInt64 v hv]
  · intro htype v h1 h2
    have happ : (⟨pool, desc, []⟩ : ProtoBuilder).appendLong name v =
        (none, ⟨pool, desc, encodeField fd.number (.varint (zigZag v))⟩) := by
      simp [ProtoBuilder.appendLong, hfind, hrep, htype]
    have hp := parseFields_single fd.number (.varint (zigZag v)) hnum trivial
    rw [happ]
    refine ⟨rfl, ?_⟩
    simp [ProtoBuilder.serializeRaw, recoverSint32, recoverVarint, hp, lastW,
      unZigZag32_zigZag v h1 h2]
  · intro htype v h1 h2
    have happ : (⟨pool, desc, []⟩ : ProtoBuilder).appendLong name v =
        (none, ⟨pool, desc, encodeField fd.number (.varint (zigZag v))⟩) := by
      simp [ProtoBuilder.appendLong, hfind, hrep, htype]
    have hp := parseFields_single fd.number (.varint (zigZag v)) hnum trivial
    rw [happ]
    refine ⟨rfl, ?_⟩
    simp [ProtoBuilder.serializeRaw, recoverSint64, recoverVarint, hp, lastW,
      unZigZag64_zigZag v h1 h2]
  · intro htype v h1 h2
    have happ : (⟨pool, desc, []⟩ : ProtoBuilder).appendLong name v =
        (none, ⟨pool, desc, encodeField fd.number (.fixed64 (toUInt64 v))⟩) := by
      simp [ProtoBuilder.appendLong, hfind, hrep, htype]
    have hp := parseFields_single fd.number (.fixed64 v.toNat) hnum
      (show v.toNat < 2 ^ 64 by omega)
    rw [happ]
    refine ⟨rfl, ?_⟩
    rw [toUInt64_of_nonneg v h1 (by omega)]
    simp [ProtoBuilder.serializeRaw, recoverFixed64, hp, lastW]
  · intro htype d hd
    have happ : (⟨pool, desc, []⟩ : ProtoBuilder).appendDouble name d =
        (none, ⟨pool, desc, encodeField fd.number (.fixed64 d)⟩) := by
      simp [ProtoBuilder.appendDouble, hfind, hrep, htype]
    have hp := parseFields_single fd.number (.fixed64 d) hnum hd
    rw [happ]
    refine ⟨rfl, ?_⟩
    simp [ProtoBuilder.serializeRaw, recoverDouble, recoverFixed64, hp, lastW]
  · intro htype str
    have happ : (⟨pool, desc, []⟩ : ProtoBuilder).appendString name str =
        (none, ⟨pool, desc, encodeField fd.number (.lenDelim (strBytes str))⟩) := by
      simp [ProtoBuilder.appendString, hfind, hrep, htype]
    have hp := parseFields_single fd.number (.lenDelim (strBytes str)) hnum trivial
    rw [happ]
    refine ⟨rfl, ?_⟩
    simp [ProtoBuilder.serializeRaw, recoverString, hp, lastW]

/-- C1 witness: the round-trip theorem applied at concrete inputs (an `int32`
field with value -5 and an `sint64` field with value -7). -/
theorem c1_append_serialize_round_trip_witness :
    (recoverInt32
      ((⟨⟨[]⟩, ⟨"T", [⟨"f", 1, .int32, false, ""⟩], []⟩, []⟩ : ProtoBuilder).appendLong
        "f" (-5)).2.serializeRaw 1 = some (-5)) ∧
    (recoverSint64
      ((⟨⟨[]⟩, ⟨"S", [⟨"g", 2, .sint64, false, ""⟩], []⟩, []⟩ : ProtoBuilder).appendLong
        "g" (-7)).2.serializeRaw 2 = some (-7)) := by
  constructor
  · exact ((c1_append_serialize_round_trip ⟨[]⟩ ⟨"T", [⟨"f", 1, .int32, false, ""⟩], []⟩
      "f" ⟨"f", 1, .int32, false, ""⟩ (by decide) (by decide) rfl).1 rfl (-5)
      (by decide) (by decide)).2
  · exact (((((((c1_append_serialize_round_trip ⟨[]⟩ ⟨"S", [⟨"g", 2, .sint64, false, ""⟩], []⟩
      "g" ⟨"g", 2, .sint64, false, ""⟩ (by decide) (by decide) rfl).2).2).2).2).2).1 rfl (-7)
      (by decide) (by decide)).2

/-! ### Decoding the Single envelopes -/

theorem parseFields_encodeSingleInner (t : Nat) (tn : List Nat) (payload : Option (List Nat)) :
    parseFields (encodeSingleInner t tn payload) =
      (1, .varint t) :: (2, .lenDelim tn) ::
        (match payload with
         | some p => [(3, WireValue.lenDelim p)]
         | none => []) := by
  unfold encodeSingleInner
  rw [parseFields_cons 1 (.varint t) _ (by omega) trivial,
    parseFields_cons 2 (.lenDelim tn) _ (by omega) trivial]
  cases payload with
  | none => simp [parseFields_nil]
  | some p => simp [parseFields_single 3 (.lenDelim p) (by omega) trivial]

theorem parseFields_encodeSingleEnvelope (t : Nat) (tn : List Nat) (payload : Option (List Nat)) :
    parseFields (encodeSingleEnvelope t tn payload) =
      [(1, .varint 0), (2, .lenDelim (encodeSingleInner t tn payload))] := by
  unfold encodeSingleEnvelope
  rw [parseFields_cons 1 (.varint 0) _ (by omega) trivial,
    parseFields_single 2 (.lenDelim (encodeSingleInner t tn payload)) (by omega) trivial]

/-- The decoder views of a writer-side Single envelope. -/
theorem singleEnvelope_views (t : Nat) (tn : List Nat) (payload : Option (List Nat)) :
    pbrIsRepeated (encodeSingleEnvelope t tn payload) = false ∧
    pbrSingleBytes (encodeSingleEnvelope t tn payload) = encodeSingleInner t tn payload ∧
    sbrType (encodeSingleInner t tn payload) = t ∧
    sbrTypeName (encodeSingleInner t tn payload) = tn ∧
    sbrHasProtobuf (encodeSingleInner t tn payload) = payload.isSome ∧
    sbrProtobuf (encodeSingleInner t tn payload) = payload.getD [] := by
  refine ⟨?_, ?_, ?_, ?_, ?_, ?_⟩ <;>
    simp only [pbrIsRepeated, pbrSingleBytes, sbrType, sbrTypeName, sbrHasProtobuf, sbrProtobuf,
      parseFields_encodeSingleEnvelope, parseFields_encodeSingleInner] <;>
    cases payload <;> simp [lastW]

/-! ### Claim C2 -/

/-- C2 (counterexample): a Single envelope whose payload is present but has
zero length is NOT accepted as valid: even with matching wire kind (11 =
message) and matching type name, `ValidateSingleNonEmptyMessage` rejects it
with "Field has zero size" (the comment in the code says zero-size fields
"should have been reported as null one layer down"). -/
theorem c2_zero_length_payload_counterexample :
    validateSingleNonEmptyMessage (encodeSingleEnvelope 11 (strBytes "T") (some [])) 11 "T" =
      .error "Field has zero size" := by
  rfl

/-- C2 (amended): during Single-envelope validation, a missing payload and a
zero-length payload are BOTH rejected, with distinct errors ("Message has no
proto bytes" vs "Field has zero size"); the two cases are distinguished, but
the zero-length payload is not accepted — "message field present but empty"
is instead expressed by handing the builder an empty byte span, which is
handled before envelope decoding (`AppendSingleMessage`, see C7). -/
theorem c2_missing_vs_zero_payload (t : Nat) (name : String)
    (hsz1 : (encodeSingleEnvelope t (strBytes name) none).length ≤ kMaxMessageLength)
    (hsz2 : (encodeSingleEnvelope t (strBytes name) (some [])).length ≤ kMaxMessageLength) :
    validateSingleNonEmptyMessage (encodeSingleEnvelope t (strBytes name) none) t name =
      .error "Message has no proto bytes" ∧
    validateSingleNonEmptyMessage (encodeSingleEnvelope t (strBytes name) (some [])) t name =
      .error "Field has zero size" ∧
    ("Message has no proto bytes" : String) ≠ "Field has zero size" := by
  refine ⟨?_, ?_, by decide⟩
  · obtain ⟨h1, h2, h3, h4, h5, h6⟩ := singleEnvelope_views t (strBytes name) none
    simp [validateSingleNonEmptyMessage, h1, h2, h3, h4, h5, h6, Nat.not_lt.mpr hsz1]
  · obtain ⟨h1, h2, h3, h4, h5, h6⟩ := singleEnvelope_views t (strBytes name) (some [])
    simp [validateSingleNonEmptyMessage, h1, h2, h3, h4, h5, h6, Nat.not_lt.mpr hsz2]

/-- C2 witness: the amended theorem applied at wire kind 11 (message) and
type name "T". -/
theorem c2_missing_vs_zero_payload_witness :
    validateSingleNonEmptyMessage (encodeSingleEnvelope 11 (strBytes "T") none) 11 "T" =
      .error "Message has no proto bytes" ∧
    validateSingleNonEmptyMessage (encodeSingleEnvelope 11 (strBytes "T") (some [])) 11 "T" =
      .error "Field has zero size" :=
  ⟨(c2_missing_vs_zero_payload 11 "T" (by decide) (by decide)).1,
   (c2_missing_vs_zero_payload 11 "T" (by decide) (by decide)).2.1⟩

/-! ### Claim C3 -/

/-- C3: appending a non-empty byte span to a non-repeated message-kind field
fails with the type-mismatch error whenever the declared type name inside the
decoded Single envelope differs from the field's resolved type name, even
though the declared wire kind (11) equals message; the builder state is not
mutated. -/
theorem c3_type_name_mismatch_errors
    (pool : DescriptorPool) (desc : ProtoDescriptor) (msg0 : List Nat)
    (name : String) (fd : FieldDescriptor) (declared payload : List Nat)
    (hfind : desc.FindFieldByName name = some fd)
    (hrep : fd.is_repeated = false)
    (htype : fd.type = .message)
    (_hpay : payload ≠ [])
    (hmismatch : declared ≠ strBytes fd.resolved_type_name)
    (hsz : (encodeSingleEnvelope 11 declared (some payload)).length ≤ kMaxMessageLength) :
    ((⟨pool, desc, msg0⟩ : ProtoBuilder).appendBytes name
        (encodeSingleEnvelope 11 declared (some payload))).1 =
      some ("[Field " ++ fd.name ++ " in message " ++ desc.full_name ++ "]: " ++
        ("Field has wrong type (expected " ++ fd.resolved_type_name ++ ", was " ++
          bytesToStdString declared ++ ")")) ∧
    ((⟨pool, desc, msg0⟩ : ProtoBuilder).appendBytes name
        (encodeSingleEnvelope 11 declared (some payload))).2 = ⟨pool, desc, msg0⟩ := by
  obtain ⟨h1, h2, h3, h4, h5, h6⟩ := singleEnvelope_views 11 declared (some payload)
  have hcode : fd.type.code = 11 := by rw [htype]; rfl
  have hvalid : validateSingleNonEmptyMessage (encodeSingleEnvelope 11 declared (some payload))
      fd.type.code fd.resolved_type_name =
      .error ("Field has wrong type (expected " ++ fd.resolved_type_name ++ ", was " ++
        bytesToStdString declared ++ ")") := by
    simp [validateSingleNonEmptyMessage, h1, h2, h3, h4, h5, h6, Nat.not_lt.mpr hsz, hcode,
      hmismatch]
  have hlen0 : ¬ (encodeSingleEnvelope 11 declared (some payload)).length = 0 := by
    have hpos := encodeField_length_pos 1 (WireValue.varint 0)
    have hsum : (encodeSingleEnvelope 11 declared (some payload)).length =
        (encodeField 1 (WireValue.varint 0)).length +
          (encodeField 2 (.lenDelim (encodeSingleInner 11 declared (some payload)))).length := by
      simp [encodeSingleEnvelope]
    omega
  rw [hcode] at hvalid
  constructor <;>
    simp [ProtoBuilder.appendBytes, hfind, hrep, ProtoBuilder.appendBytesCore, htype,
      ProtoBuilder.appendSingleMessage, hlen0, FieldType.code, hvalid]

/-- C3 witness: a message field resolved to type "T" receiving an envelope
declaring type "U" with a one-byte payload. -/
theorem c3_type_name_mismatch_errors_witness :
    ((⟨⟨[]⟩, ⟨"M", [⟨"m", 1, .message, false, "T"⟩], []⟩, []⟩ : ProtoBuilder).appendBytes "m"
        (encodeSingleEnvelope 11 (strBytes "U") (some [1]))).1 =
      some ("[Field " ++ "m" ++ " in message " ++ "M" ++ "]: " ++
        ("Field has wrong type (expected " ++ "T" ++ ", was " ++
          bytesToStdString (strBytes "U") ++ ")")) :=
  (c3_type_name_mismatch_errors ⟨[]⟩ ⟨"M", [⟨"m", 1, .message, false, "T"⟩], []⟩ []
    "m" ⟨"m", 1, .message, false, "T"⟩ (strBytes "U") [1]
    (by decide) rfl rfl (by decide) (by decide) (by decide)).1

/-! ### Claim C7 -/

/-- C7: appending an empty byte span to a non-repeated message-kind field
always succeeds, appending a length-delimited empty record under the field's
number; on a fresh builder the serialized message then decodes with the field
present and empty, while the fresh builder's own serialization has the field
absent. -/
theorem c7_empty_message_present
    (pool : DescriptorPool) (desc : ProtoDescriptor) (msg0 : List Nat)
    (name : String) (fd : FieldDescriptor)
    (hfind : desc.FindFieldByName name = some fd)
    (hrep : fd.is_repeated = false)
    (htype : fd.type = .message)
    (hnum : 0 < fd.number) :
    ((⟨pool, desc, msg0⟩ : ProtoBuilder).appendBytes name []).1 = none ∧
    ((⟨pool, desc, msg0⟩ : ProtoBuilder).appendBytes name []).2.message =
      msg0 ++ encodeField fd.number (.lenDelim []) ∧
    fieldPresent ((⟨pool, desc, []⟩ : ProtoBuilder).appendBytes name []).2.serializeRaw
      fd.number = true ∧
    recoverString ((⟨pool, desc, []⟩ : ProtoBuilder).appendBytes name []).2.serializeRaw
      fd.number = some [] ∧
    fieldPresent (⟨pool, desc, []⟩ : ProtoBuilder).serializeRaw fd.number = false := by
  have happ : ∀ m0 : List Nat, (⟨pool, desc, m0⟩ : ProtoBuilder).appendBytes name [] =
      (none, ⟨pool, desc, m0 ++ encodeField fd.number (.lenDelim [])⟩) := by
    intro m0
    simp [ProtoBuilder.appendBytes, hfind, hrep, ProtoBuilder.appendBytesCore, htype,
      ProtoBuilder.appendSingleMessage]
  have hp := parseFields_single fd.number (.lenDelim []) hnum trivial
  refine ⟨by rw [happ msg0], by rw [happ msg0], ?_, ?_, ?_⟩
  · rw [happ []]
    simp [ProtoBuilder.serializeRaw, fieldPresent, hp, lastW]
  · rw [happ []]
    simp [ProtoBuilder.serializeRaw, recoverString, hp, lastW]
  · simp [ProtoBuilder.serializeRaw, fieldPresent, parseFields_nil, lastW]

/-- C7 witness: concrete message field number 1 on a fresh builder. -/
theorem c7_empty_message_present_witness :
    ((⟨⟨[]⟩, ⟨"M", [⟨"m", 1, .message, false, "T"⟩], []⟩, []⟩ : ProtoBuilder).appendBytes
        "m" []).1 = none ∧
    fieldPresent ((⟨⟨[]⟩, ⟨"M", [⟨"m", 1, .message, false, "T"⟩], []⟩, []⟩ :
        ProtoBuilder).appendBytes "m" []).2.serializeRaw 1 = true :=
  ⟨(c7_empty_message_present ⟨[]⟩ ⟨"M", [⟨"m", 1, .message, false, "T"⟩], []⟩ []
      "m" ⟨"m", 1, .message, false, "T"⟩ (by decide) rfl rfl (by decide)).1,
   (c7_empty_message_present ⟨[]⟩ ⟨"M", [⟨"m", 1, .message, false, "T"⟩], []⟩ []
      "m" ⟨"m", 1, .message, false, "T"⟩ (by decide) rfl rfl (by decide)).2.2.1⟩

/-! ### Claim C4 -/

theorem addSqlValue_step (b : RepeatedFieldBuilder) (v : SqlValue) :
    b.addSqlValue v = ⟨b.values ++ [sqlToRep v], true⟩ := by
  cases v <;> simp [RepeatedFieldBuilder.addSqlValue, RepeatedFieldBuilder.addLong,
    RepeatedFieldBuilder.addDouble, RepeatedFieldBuilder.addString,
    RepeatedFieldBuilder.addBytes, sqlToRep]

theorem foldl_addSqlValue (vs : List SqlValue) :
    ∀ b : RepeatedFieldBuilder, vs.foldl RepeatedFieldBuilder.addSqlValue b =
      ⟨b.values ++ vs.map sqlToRep, b.has_data || !vs.isEmpty⟩ := by
  induction vs with
  | nil => intro b; simp
  | cons v vs ih => intro b; simp [addSqlValue_step, ih]

theorem parseFields_encodeRepeatedValues (vals : List RepValue) :
    parseFields (encodeRepeatedValues vals) =
      vals.map (fun v => (1, WireValue.lenDelim (encodeRepValue v))) := by
  induction vals with
  | nil => simp [encodeRepeatedValues, parseFields_nil]
  | cons v vs ih =>
    unfold encodeRepeatedValues
    rw [parseFields_cons 1 (.lenDelim (encodeRepValue v)) _ (by omega) trivial, ih]
    simp

theorem rbrValues_encodeRepeatedValues (vals : List RepValue) :
    rbrValues (encodeRepeatedValues vals) = vals.map encodeRepValue := by
  rw [rbrValues, parseFields_encodeRepeatedValues]
  induction vals with
  | nil => rfl
  | cons v vs ih => simp_all [List.filterMap_cons]

theorem sqlToRep_wf (v : SqlValue) (h : v.wfV) : (sqlToRep v).wfR := by
  cases v <;> simp_all [sqlToRep, SqlValue.wfV, RepValue.wfR]

theorem decodeRep_encodeRepValue (v : RepValue) (h : v.wfR) :
    (if rvHasInt (encodeRepValue v) then RepValue.int (rvIntValue (encodeRepValue v))
     else if rvHasDouble (encodeRepValue v) then RepValue.double (rvDoubleBits (encodeRepValue v))
     else if rvHasString (encodeRepValue v) then RepValue.str (rvStringBytes (encodeRepValue v))
     else RepValue.bytes (rvBytesValue (encodeRepValue v))) = v := by
  cases v with
  | int v =>
    obtain ⟨h1, h2⟩ := h
    have hp := parseFields_single 1 (.varint (toUInt64 v)) (by omega) trivial
    simp [encodeRepValue, rvHasInt, rvIntValue, hp, lastW, toSigned64_toUInt64 v h1 h2]
  | double d =>
    have hd : d < 2 ^ 64 := h
    have hp := parseFields_single 2 (.fixed64 d) (by omega) hd
    have ht : (leBytes 8 d).take 8 = leBytes 8 d :=
      List.take_of_length_le (by simp [leBytes_length])
    have hm : d % 256 ^ 8 = d := Nat.mod_eq_of_lt (by omega)
    simp [encodeRepValue, rvHasInt, rvHasDouble, rvDoubleBits, hp, lastW, ht,
      leVal_leBytes, hm]
    omega
  | str bs =>
    have hp := parseFields_single 3 (.lenDelim bs) (by omega) trivial
    simp [encodeRepValue, rvHasInt, rvHasDouble, rvHasString, rvStringBytes, hp, lastW]
  | bytes bs =>
    have hp := parseFields_single 4 (.lenDelim bs) (by omega) trivial
    simp [encodeRepValue, rvHasInt, rvHasDouble, rvHasString, rvHasBytes, rvBytesValue, hp, lastW]

/-- C4: a Repeated Accumulator with zero `add` calls finalizes to an empty
result; with one or more calls it finalizes to a serialized Repeated envelope
whose decoded elements, in order, are exactly the added values in call order,
with a Null value mapped to an empty-bytes element (`sqlToRep .null =
.bytes []`). -/
theorem c4_repeated_accumulator (vs : List SqlValue) (hwf : ∀ v ∈ vs, v.wfV) :
    ((vs.foldl RepeatedFieldBuilder.addSqlValue
        RepeatedFieldBuilder.init).serializeToProtoBuilderResult = [] ↔ vs = []) ∧
    (vs ≠ [] →
      pbrIsRepeated ((vs.foldl RepeatedFieldBuilder.addSqlValue
        RepeatedFieldBuilder.init).serializeToProtoBuilderResult) = true ∧
      decodeRepeatedElems ((vs.foldl RepeatedFieldBuilder.addSqlValue
        RepeatedFieldBuilder.init).serializeToProtoBuilderResult) = vs.map sqlToRep) := by
  cases vs with
  | nil =>
    refine ⟨by simp [RepeatedFieldBuilder.serializeToProtoBuilderResult,
      RepeatedFieldBuilder.init], by simp⟩
  | cons v0 vs0 =>
    have hfold := foldl_addSqlValue (v0 :: vs0) RepeatedFieldBuilder.init
    have hser : ((v0 :: vs0).foldl RepeatedFieldBuilder.addSqlValue
        RepeatedFieldBuilder.init).serializeToProtoBuilderResult =
        encodeField 3 (.lenDelim (encodeRepeatedValues ((v0 :: vs0).map sqlToRep))) ++
          encodeField 1 (.varint 1) := by
      rw [hfold]
      simp [RepeatedFieldBuilder.serializeToProtoBuilderResult, RepeatedFieldBuilder.init]
    have hp : parseFields
        (encodeField 3 (.lenDelim (encodeRepeatedValues ((v0 :: vs0).map sqlToRep))) ++
          encodeField 1 (.varint 1)) =
        [(3, .lenDelim (encodeRepeatedValues ((v0 :: vs0).map sqlToRep))), (1, .varint 1)] := by
      rw [parseFields_cons 3 (.lenDelim (encodeRepeatedValues ((v0 :: vs0).map sqlToRep))) _
        (by omega) trivial, parseFields_single 1 (.varint 1) (by omega) trivial]
    refine ⟨?_, fun _ => ⟨?_, ?_⟩⟩
    · rw [hser]
      constructor
      · intro h
        exfalso
        have h3 := encodeField_length_pos 3
          (WireValue.lenDelim (encodeRepeatedValues ((v0 :: vs0).map sqlToRep)))
        have hl : (encodeField 3
            (WireValue.lenDelim (encodeRepeatedValues ((v0 :: vs0).map sqlToRep)))).length +
            (encodeField 1 (WireValue.varint 1)).length = 0 := by
          have h2 := congrArg List.length h
          simpa using h2
        omega
      · intro h
        exact absurd h (List.cons_ne_nil v0 vs0)
    · rw [hser]
      unfold pbrIsRepeated
      rw [hp]
      simp [lastW]
    · have hrep3 : pbrRepeatedBytes
          (encodeField 3 (.lenDelim (encodeRepeatedValues ((v0 :: vs0).map sqlToRep))) ++
            encodeField 1 (.varint 1)) = encodeRepeatedValues ((v0 :: vs0).map sqlToRep) := by
        unfold pbrRepeatedBytes
        rw [hp]
        simp [lastW]
      rw [hser]
      unfold decodeRepeatedElems
      rw [hrep3, rbrValues_encodeRepeatedValues, List.map_map]
      refine (List.map_congr_left ?_).trans (List.map_id _)
      intro x hx
      obtain ⟨y, hy, rfl⟩ := List.mem_map.mp hx
      exact decodeRep_encodeRepValue (sqlToRep y) (sqlToRep_wf y (hwf y hy))

/-- C4 witness: the accumulator theorem applied to the concrete sequence
[Null, 7, "ab"]. -/
theorem c4_repeated_accumulator_witness :
    decodeRepeatedElems (([SqlValue.null, SqlValue.long 7,
        SqlValue.string "ab"].foldl RepeatedFieldBuilder.addSqlValue
        RepeatedFieldBuilder.init).serializeToProtoBuilderResult) =
      [RepValue.bytes [], RepValue.int 7, RepValue.str (strBytes "ab")] :=
  ((c4_repeated_accumulator [SqlValue.null, SqlValue.long 7, SqlValue.string "ab"]
    (by intro v hv; fin_cases hv <;> simp [SqlValue.wfV])).2 (by decide)).2

/-! ### Claim C6 -/

/-- C6 (counterexample): the 64-bit value 4294967297 (= 2^32 + 1) is not a
declared member of enum E (sole member A = 1), yet `AppendLong` on an
enum-kind field accepts it, because the membership check is performed on
`static_cast<int32_t>(value)` (= 1); the varint actually written encodes the
original 64-bit value 4294967297, not the member value. -/
theorem c6_enum_truncation_counterexample :
    ProtoDescriptor.FindEnumString ⟨"E", [], [(1, "A")]⟩ 4294967297 = none ∧
    (((⟨⟨[⟨"E", [], [(1, "A")]⟩]⟩, ⟨"M", [⟨"e", 1, .enum, false, "E"⟩], []⟩, []⟩ :
        ProtoBuilder).appendLong "e" 4294967297).1 = none) ∧
    (((⟨⟨[⟨"E", [], [(1, "A")]⟩]⟩, ⟨"M", [⟨"e", 1, .enum, false, "E"⟩], []⟩, []⟩ :
        ProtoBuilder).appendLong "e" 4294967297).2.message =
      encodeField 1 (.varint 4294967297)) := by
  decide

/-- C6 (amended): for a non-repeated enum-kind field: an unresolvable enum
type is an error on both the integer and the text path; appending an integer
requires the value TRUNCATED TO 32 BITS to be a declared member value (so
64-bit values equal to a member modulo 2^32 are accepted) and varint-encodes
the ORIGINAL 64-bit value; appending text requires the text to be a declared
member name and varint-encodes that name's integer value; an unknown member
is an error on both paths. -/
theorem c6_enum_append
    (pool : DescriptorPool) (desc : ProtoDescriptor) (msg0 : List Nat) (name : String)
    (fd : FieldDescriptor)
    (hfind : desc.FindFieldByName name = some fd)
    (hrep : fd.is_repeated = false)
    (htype : fd.type = .enum) :
    (∀ v : Int, pool.FindDescriptorIdx fd.resolved_type_name = none →
      ((⟨pool, desc, msg0⟩ : ProtoBuilder).appendLong name v).1.isSome = true) ∧
    (∀ s : String, pool.FindDescriptorIdx fd.resolved_type_name = none →
      ((⟨pool, desc, msg0⟩ : ProtoBuilder).appendString name s).1.isSome = true) ∧
    (∀ v : Int, ∀ idx : Nat, pool.FindDescriptorIdx fd.resolved_type_name = some idx →
      ((pool.getDescriptor idx).FindEnumString (toInt32 v) = none →
        ((⟨pool, desc, msg0⟩ : ProtoBuilder).appendLong name v).1.isSome = true) ∧
      (∀ memberName : String,
        (pool.getDescriptor idx).FindEnumString (toInt32 v) = some memberName →
        (⟨pool, desc, msg0⟩ : ProtoBuilder).appendLong name v =
          (none, ⟨pool, desc, msg0 ++ encodeField fd.number (.varint (toUInt64 v))⟩))) ∧
    (∀ s : String, ∀ idx : Nat, pool.FindDescriptorIdx fd.resolved_type_name = some idx →
      ((pool.getDescriptor idx).FindEnumValue s = none →
        ((⟨pool, desc, msg0⟩ : ProtoBuilder).appendString name s).1.isSome = true) ∧
      (∀ ev : Int, (pool.getDescriptor idx).FindEnumValue s = some ev →
        (⟨pool, desc, msg0⟩ : ProtoBuilder).appendString name s =
          (none, ⟨pool, desc, msg0 ++ encodeField fd.number (.varint (toUInt64 ev))⟩))) := by
  refine ⟨?_, ?_, ?_, ?_⟩
  · intro v hnone
    simp [ProtoBuilder.appendLong, hfind, hrep, htype, hnone]
  · intro s hnone
    simp [ProtoBuilder.appendString, hfind, hrep, htype, hnone]
  · intro v idx hidx
    constructor
    · intro hmem
      simp [ProtoBuilder.appendLong, hfind, hrep, htype, hidx, hmem]
    · intro memberName hmem
      simp [ProtoBuilder.appendLong, hfind, hrep, htype, hidx, hmem]
  · intro s idx hidx
    constructor
    · intro hmem
      simp [ProtoBuilder.appendString, hfind, hrep, htype, hidx, hmem]
    · intro ev hmem
      simp [ProtoBuilder.appendString, hfind, hrep, htype, hidx, hmem]

/-- C6 witness: enum E with member A = 1: appending the member name "A" as
text succeeds and varint-encodes the member's integer value 1; appending the
integer 5 (not a member, also not modulo 2^32) fails. -/
theorem c6_enum_append_witness :
    ((⟨⟨[⟨"E", [], [(1, "A")]⟩]⟩, ⟨"M", [⟨"e", 1, .enum, false, "E"⟩], []⟩, []⟩ :
        ProtoBuilder).appendString "e" "A" =
      (none, ⟨⟨[⟨"E", [], [(1, "A")]⟩]⟩, ⟨"M", [⟨"e", 1, .enum, false, "E"⟩], []⟩,
        [] ++ encodeField 1 (.varint (toUInt64 1))⟩)) ∧
    (((⟨⟨[⟨"E", [], [(1, "A")]⟩]⟩, ⟨"M", [⟨"e", 1, .enum, false, "E"⟩], []⟩, []⟩ :
        ProtoBuilder).appendLong "e" 5).1.isSome = true) :=
  ⟨((c6_enum_append ⟨[⟨"E", [], [(1, "A")]⟩]⟩ ⟨"M", [⟨"e", 1, .enum, false, "E"⟩], []⟩ []
      "e" ⟨"e", 1, .enum, false, "E"⟩ (by decide) rfl rfl).2.2.2 "A" 0 (by decide)).2 1
      (by decide),
   ((c6_enum_append ⟨[⟨"E", [], [(1, "A")]⟩]⟩ ⟨"M", [⟨"e", 1, .enum, false, "E"⟩], []⟩ []
      "e" ⟨"e", 1, .enum, false, "E"⟩ (by decide) rfl rfl).2.2.1 5 0 (by decide)).1
      (by decide)⟩

/-! ### Claim C5 -/

/-- C5: whenever the orchestrator's per-metric loop reaches a metric (from
any root-builder state `b`, i.e. at any position in the requested list) whose
statements all succeed and whose output-table query yields a second row (the
first row being a valid single bytes column), the whole orchestration fails
with the cardinality error naming the output table; the result is an error,
so no composite result bytes are produced — in this embedding `ComputeMetrics`
returns bytes only through `Except.ok`, mirroring that the C++ out-parameter
is assigned only after the loop completes. -/
theorem c5_second_row_cardinality_error
    (tp : TraceProcessor) (sql_metrics : List SqlMetricFile) (b : ProtoBuilder)
    (name : String) (rest : List String) (m : SqlMetricFile) (table : String)
    (row1 row2 : List SqlValue) (more : List (List SqlValue)) (col : List Nat)
    (hfind : sql_metrics.find? (fun f => f.proto_field_name == some name) = some m)
    (hrun : runStatements tp (splitStatements m.sql) = none)
    (htable : m.output_table_name = some table)
    (hrows : (tp ("SELECT * FROM " ++ table ++ ";")).rows = row1 :: row2 :: more)
    (hcols : (tp ("SELECT * FROM " ++ table ++ ";")).columnCount = 1)
    (hcol : row1.getD 0 SqlValue.null = SqlValue.bytes col)
    (happend : (b.appendSqlValue name (SqlValue.bytes col)).1 = none) :
    computeMetricsGo tp sql_metrics b (name :: rest) =
      some (.error ("Output table " ++ table ++ " should have at most one row")) := by
  have hpf : m.proto_field_name = some name := by
    have h := List.find?_some hfind
    simpa using h
  have hstep : stepStatus (tp ("SELECT * FROM " ++ table ++ ";")) = none := by
    simp [stepStatus, hrows]
  rcases hap : b.appendSqlValue name (SqlValue.bytes col) with ⟨st, b2⟩
  rw [hap] at happend
  simp at happend
  subst happend
  have hcol2 : row1[0]?.getD SqlValue.null = SqlValue.bytes col := by
    simpa using hcol
  simp [computeMetricsGo, hfind, hrun, htable, hstep, hpf, hrows, hcols, hcol2,
    SqlValue.isBytes, hap]

/-- C5 witness: a concrete engine whose output table "out" yields two rows of
one bytes column each; the orchestration of the single metric "m" fails with
the cardinality error. -/
theorem c5_second_row_cardinality_error_witness :
    computeMetricsGo
      (fun q => if q = "SELECT * FROM out;"
        then ⟨[[SqlValue.bytes []], [SqlValue.bytes []]], 1, none⟩
        else ⟨[], 0, none⟩)
      [⟨"p", "", some "out", some "m"⟩]
      ⟨⟨[]⟩, ⟨"M", [⟨"m", 1, .message, false, "T"⟩], []⟩, []⟩
      ["m"] =
      some (.error ("Output table " ++ "out" ++ " should have at most one row")) :=
  c5_second_row_cardinality_error
    (fun q => if q = "SELECT * FROM out;"
      then ⟨[[SqlValue.bytes []], [SqlValue.bytes []]], 1, none⟩
      else ⟨[], 0, none⟩)
    [⟨"p", "", some "out", some "m"⟩]
    ⟨⟨[]⟩, ⟨"M", [⟨"m", 1, .message, false, "T"⟩], []⟩, []⟩
    "m" [] ⟨"p", "", some "out", some "m"⟩ "out"
    [SqlValue.bytes []] [SqlValue.bytes []] [] []
    (by decide) rfl rfl (by decide) (by decide) (by decide) (by decide)

/-! ### Claim C8 -/

theorem findDelim_bound : ∀ (text : List Char) (i : Nat),
    findDelim text = some i → i + 2 ≤ text.length := by
  intro text
  induction text with
  | nil => intro i h; simp [findDelim] at h
  | cons c cs ih =>
    intro i h
    simp only [findDelim] at h
    by_cases hp : [';', '\n'].isPrefixOf (c :: cs)
    · rw [if_pos hp] at h
      have h0 : i = 0 := (Option.some.inj h).symm
      subst h0
      have hpre : [';', '\n'] <+: c :: cs := List.isPrefixOf_iff_prefix.mp hp
      have hle := hpre.length_le
      simp at hle ⊢
      omega
    · rw [if_neg hp] at h
      cases hj : findDelim cs with
      | none => rw [hj] at h; simp at h
      | some j =>
        rw [hj] at h
        simp at h
        have := ih j hj
        simp
        omega

theorem splitStatementsAux_pieces_ne_nil :
    ∀ (f : Nat) (text piece : List Char), piece ∈ splitStatementsAux f text → piece ≠ [] := by
  intro f
  induction f with
  | zero => intro text piece h; simp [splitStatementsAux] at h
  | succ f ih =>
    intro text piece h
    simp only [splitStatementsAux] at h
    cases hd : findDelim text with
    | none =>
      rw [hd] at h
      by_cases he : text.isEmpty
      · simp [he] at h
      · simp only [if_neg he, List.mem_singleton] at h
        subst h
        simpa [List.isEmpty_iff] using he
    | some i =>
      rw [hd] at h
      by_cases hi : i = 0
      · simp only [if_pos hi] at h
        exact ih _ piece h
      · simp only [if_neg hi, List.mem_cons] at h
        rcases h with h | h
        · subst h
          have hb := findDelim_bound text i hd
          intro hcontra
          have hl : min i text.length = 0 := by
            have h2 := congrArg List.length hcontra
            simpa [List.length_take] using h2
          omega
        · exact ih _ piece h

/-- Every statement `ComputeMetrics` executes is a non-empty string (empty
pieces are dropped by the splitter), but it is executed verbatim: no
whitespace trimming, whitespace-only statements included. -/
theorem splitStatements_ne_empty (sql : String) :
    ∀ s ∈ splitStatements sql, s ≠ "" := by
  intro s hs
  simp only [splitStatements, List.mem_map] at hs
  obtain ⟨piece, hmem, rfl⟩ := hs
  have hne := splitStatementsAux_pieces_ne_nil _ _ piece hmem
  intro hcontra
  have := congrArg String.data hcontra
  simp at this
  exact hne this

theorem runStatements_first_error (tp : TraceProcessor) :
    ∀ (pre : List String) (q : String) (post : List String) (e : String),
      (∀ s ∈ pre, stepStatus (tp s) = none) → stepStatus (tp q) = some e →
      runStatements tp (pre ++ q :: post) = some e := by
  intro pre
  induction pre with
  | nil =>
    intro q post e _ hq
    simp [runStatements, hq]
  | cons p ps ih =>
    intro q post e hpre hq
    have hp : stepStatus (tp p) = none := hpre p (by simp)
    simp only [List.cons_append, runStatements, hp]
    exact ih q post e (fun s hs => hpre s (by simp [hs])) hq

/-- C8 (counterexample): the orchestrator does NOT trim leading whitespace
from statements. The script "  bad" splits to the single verbatim statement
"  bad"; an engine that errors only on the untrimmed text "  bad" (and would
accept the trimmed "bad") makes the whole orchestration fail with that error,
so the statement was passed untrimmed. -/
theorem c8_no_trimming_counterexample :
    splitStatements "  bad" = ["  bad"] ∧
    computeMetrics
      (fun q => if q = "  bad" then ⟨[], 0, some "E1"⟩ else ⟨[], 0, none⟩)
      ["m"] [⟨"p", "  bad", some "out", some "m"⟩] ⟨[]⟩ ⟨"M", [], []⟩ =
      some (.error "E1") := by
  constructor
  · decide
  · rfl

/-- C8 (amended): for each requested metric the orchestrator splits the
script at every `;` followed by a newline, dropping empty pieces, and
executes the resulting statements verbatim (untrimmed; they are non-empty but
may be whitespace-only), in order; the first failing statement's error is
propagated verbatim as the orchestration result, and the result does not
depend on the statements after the failing one. -/
theorem c8_statement_execution
    (tp : TraceProcessor) (sql_metrics : List SqlMetricFile) (b : ProtoBuilder)
    (name : String) (rest : List String) (m : SqlMetricFile)
    (hfind : sql_metrics.find? (fun f => f.proto_field_name == some name) = some m) :
    (∀ e : String, runStatements tp (splitStatements m.sql) = some e →
      computeMetricsGo tp sql_metrics b (name :: rest) = some (.error e)) ∧
    (∀ (pre : List String) (q : String) (post : List String) (e : String),
      (∀ s ∈ pre, stepStatus (tp s) = none) → stepStatus (tp q) = some e →
      runStatements tp (pre ++ q :: post) = some e) ∧
    (∀ s ∈ splitStatements m.sql, s ≠ "") := by
  refine ⟨?_, runStatements_first_error tp, splitStatements_ne_empty m.sql⟩
  intro e herr
  simp [computeMetricsGo, hfind, herr]

/-- C8 witness: applied to the engine of the counterexample from the loop
state: the untrimmed statement's error "E1" is the orchestration result. -/
theorem c8_statement_execution_witness :
    computeMetricsGo
      (fun q => if q = "  bad" then ⟨[], 0, some "E1"⟩ else ⟨[], 0, none⟩)
      [⟨"p", "  bad", some "out", some "m"⟩] ⟨⟨[]⟩, ⟨"M", [], []⟩, []⟩ ["m"] =
      some (.error "E1") :=
  (c8_statement_execution
    (fun q => if q = "  bad" then ⟨[], 0, some "E1"⟩ else ⟨[], 0, none⟩)
    [⟨"p", "  bad", some "out", some "m"⟩] ⟨⟨[]⟩, ⟨"M", [], []⟩, []⟩
    "m" [] ⟨"p", "  bad", some "out", some "m"⟩ (by decide)).1 "E1" (by decide)

/-! ### Claim C9 -/

theorem closeBraces_length : ∀ (l r3 : List Char),
    closeBraces l = some r3 → r3.length + 2 = l.length := by
  intro l r3 h
  cases l with
  | nil => simp [closeBraces] at h
  | cons d1 t1 =>
    cases t1 with
    | nil => simp [closeBraces] at h
    | cons d2 t2 =>
      simp only [closeBraces] at h
      by_cases hd : d1 = '\x7d' ∧ d2 = '\x7d'
      · rw [if_pos hd] at h
        have : t2 = r3 := Option.some.inj h
        subst this
        simp
      · rw [if_neg hd] at h
        simp at h

theorem matchToken_length : ∀ (l : List Char) (id : String) (rest : List Char),
    matchToken l = some (id, rest) → rest.length < l.length := by
  intro l id rest h
  cases l with
  | nil => simp [matchToken] at h
  | cons c1 t1 =>
    cases t1 with
    | nil => simp [matchToken] at h
    | cons c2 t2 =>
      simp only [matchToken] at h
      by_cases hb : c1 = '\x7b' ∧ c2 = '\x7b'
      · rw [if_pos hb] at h
        cases hc : closeBraces (((t2.dropWhile spaceChar).dropWhile wordChar).dropWhile
            spaceChar) with
        | none => rw [hc] at h; simp at h
        | some r3 =>
          rw [hc] at h
          have hrest : rest = r3 := by
            have h2 := Option.some.inj h
            exact (congrArg Prod.snd h2).symm
          subst hrest
          have hcl := closeBraces_length _ _ hc
          have h1 : (((t2.dropWhile spaceChar).dropWhile wordChar).dropWhile
              spaceChar).length ≤ t2.length := by
            calc (((t2.dropWhile spaceChar).dropWhile wordChar).dropWhile
                spaceChar).length ≤ ((t2.dropWhile spaceChar).dropWhile
                wordChar).length := (List.dropWhile_sublist _).length_le
              _ ≤ (t2.dropWhile spaceChar).length := (List.dropWhile_sublist _).length_le
              _ ≤ t2.length := (List.dropWhile_sublist _).length_le
          simp
          omega
      · rw [if_neg hb] at h
        simp at h

theorem templateReplaceAux_zero_iff (subs : List (String × String)) :
    ∀ (f : Nat) (l : List Char), l.length ≤ f →
      ((templateReplaceAux subs f l).1 = 0 ↔
        ∀ id ∈ scannedIdsAux f l, (subs.find? (fun p => p.1 == id)).isSome = true) := by
  intro f
  induction f with
  | zero =>
    intro l h
    have hl : l = [] := by cases l <;> simp_all
    subst hl
    simp [templateReplaceAux, scannedIdsAux]
  | succ f ih =>
    intro l hl
    cases l with
    | nil => simp [templateReplaceAux, scannedIdsAux]
    | cons c cs =>
      simp only [templateReplaceAux, scannedIdsAux]
      cases hm : matchToken (c :: cs) with
      | none =>
        have hrec := ih cs (by simp at hl; omega)
        simpa using hrec
      | some p =>
        obtain ⟨id, rest⟩ := p
        have hlen := matchToken_length _ _ _ hm
        cases hf : subs.find? (fun q => q.1 == id) with
        | none =>
          simp only [hf]
          constructor
          · intro h0
            simp at h0
          · intro hall
            have hid := hall id (by simp)
            rw [hf] at hid
            simp at hid
        | some q =>
          have hrec := ih rest (by simp at hl hlen ⊢; omega)
          simp only [hf]
          constructor
          · intro h0 id2 hid2
            rcases List.mem_cons.mp hid2 with h | h
            · subst h
              simp [hf]
            · exact (hrec.mp (by simpa using h0)) id2 h
          · intro hall
            exact hrec.mpr (fun id2 h2 => hall id2 (List.mem_cons_of_mem _ h2))

/-- C9: template expansion succeeds (result code 0) precisely when every
scanned `{{ identifier }}` token (whitespace around the bare-word identifier
ignored) has a mapping; an unmapped identifier makes the expansion return the
hard-failure code 1 — the caller (`RunMetric`) then discards the buffer and
reports an error, so no expanded output is produced. The concrete conjuncts
are the spec's own examples: `{x: "42"}` expands `"SELECT {{x}} FROM t"` to
`"SELECT 42 FROM t"`, the same template with no mapping fails, and
whitespace inside the token is ignored. -/
theorem c9_template_expansion :
    (∀ (subs : List (String × String)) (raw : String),
      ((templateReplace raw subs).1 = 0 ↔
        ∀ id ∈ scannedIds raw, (subs.find? (fun p => p.1 == id)).isSome = true)) ∧
    templateReplace "SELECT {{x}} FROM t" [("x", "42")] = (0, "SELECT 42 FROM t") ∧
    (templateReplace "SELECT {{x}} FROM t" []).1 = 1 ∧
    templateReplace "a {{  x  }} b" [("x", "Y")] = (0, "a Y b") := by
  refine ⟨?_, by decide, by decide, by decide⟩
  intro subs raw
  exact templateReplaceAux_zero_iff subs raw.data.length raw.data le_rfl

/-- C9 witness: the success side of the iff at the spec's example. -/
theorem c9_template_expansion_witness :
    (templateReplace "SELECT {{x}} FROM t" [("x", "42")]).1 = 0 :=
  (c9_template_expansion.1 [("x", "42")] "SELECT {{x}} FROM t").mpr (by decide)

/-! ### Claim C10 -/

/-- C10: the orchestrator selects a metric file only by its proto field name
(a file with `output_table_name = none` is selected all the same); once the
script statements succeed, the designated output table name is read
unconditionally — on an absent name the orchestrator has no defined error
result (the undefined-behaviour marker `none` of the model, corresponding to
`base::Optional::value()` on nullopt); and under the precondition that every
metric file carrying a proto field name also carries an output table name,
the orchestrator is fully defined. -/
theorem c10_output_table_precondition
    (tp : TraceProcessor) (sql_metrics : List SqlMetricFile) (b : ProtoBuilder)
    (name : String) (rest : List String) :
    (∀ (path sql : String) (fs : List SqlMetricFile),
      List.find? (fun f => f.proto_field_name == some name)
          (⟨path, sql, none, some name⟩ :: fs) = some ⟨path, sql, none, some name⟩) ∧
    (∀ m : SqlMetricFile,
      sql_metrics.find? (fun f => f.proto_field_name == some name) = some m →
      runStatements tp (splitStatements m.sql) = none →
      m.output_table_name = none →
      computeMetricsGo tp sql_metrics b (name :: rest) = none) ∧
    ((∀ f ∈ sql_metrics, f.proto_field_name.isSome = true →
        f.output_table_name.isSome = true) →
      ∀ (metrics : List String) (b2 : ProtoBuilder),
        computeMetricsGo tp sql_metrics b2 metrics ≠ none) := by
  refine ⟨?_, ?_, ?_⟩
  · intro path sql fs
    simp [List.find?]
  · intro m hfind hrun hnone
    simp [computeMetricsGo, hfind, hrun, hnone]
  · intro hall metrics
    induction metrics with
    | nil => intro b2; simp [computeMetricsGo]
    | cons nm rest2 ih =>
      intro b2
      simp only [computeMetricsGo]
      split
      · simp
      · rename_i m hfd
        split
        · simp
        · split
          · rename_i hotn
            have hmem : m ∈ sql_metrics := List.mem_of_find?_eq_some hfd
            have hpf : m.proto_field_name = some nm := by
              have h := List.find?_some hfd
              simpa using h
            have hot : m.output_table_name.isSome = true := hall m hmem (by simp [hpf])
            rw [hotn] at hot
            simp at hot
          · rename_i table hotn
            split
            · simp
            · split
              · rename_i hpfn
                have hpf : m.proto_field_name = some nm := by
                  have h := List.find?_some hfd
                  simpa using h
                rw [hpfn] at hpf
                simp at hpf
              · split
                · exact ih _
                · split
                  · simp
                  · split
                    · simp
                    · split
                      · simp
                      · split
                        · split
                          · simp
                          · exact ih _
                        · simp

/-- C10 witness: a file lacking the output table name is selected by name;
the precondition instance on a concrete catalog yields a defined result. -/
theorem c10_output_table_precondition_witness :
    (List.find? (fun f => f.proto_field_name == some "m")
        [(⟨"p", "s", none, some "m"⟩ : SqlMetricFile)] = some ⟨"p", "s", none, some "m"⟩) ∧
    computeMetricsGo (fun _ => ⟨[], 0, none⟩)
      [⟨"p", "", some "out", some "m"⟩] ⟨⟨[]⟩, ⟨"M", [], []⟩, []⟩ ["m"] ≠ none :=
  ⟨(c10_output_table_precondition (fun _ => ⟨[], 0, none⟩) [] ⟨⟨[]⟩, ⟨"M", [], []⟩, []⟩
      "m" []).1 "p" "s" [],
   (c10_output_table_precondition (fun _ => ⟨[], 0, none⟩)
      [⟨"p", "", some "out", some "m"⟩] ⟨⟨[]⟩, ⟨"M", [], []⟩, []⟩ "m" []).2.2
      (by decide) ["m"] ⟨⟨[]⟩, ⟨"M", [], []⟩, []⟩⟩

end Metrics
